import Mathlib

/-!
Verification of the KoboToolbox dashboard data pipeline (`app.py`).

The development shallowly embeds the pipeline: the paginated fetcher
(`fetch_data`, app.py lines 19-29), the cleaning block (lines 87-106),
the sidebar filters (lines 112-142), the empty-table guard (lines
144-146), the `time_group` derivation (lines 151-154) and the three
render tabs (lines 164-277).  Timestamps are modelled as milliseconds
since the Unix epoch (pandas timestamps are finer-grained, but
millisecond granularity is enough to observe the end-of-day boundary
behaviour of the date filter).  Numeric cells are modelled as integers;
none of the verified properties depend on fractional numeric values.
-/

namespace Kobo

/-! ## Text canonicalisation (`.str.strip().str.title()`, app.py line 106) -/

/-- Python `str.strip()` on a list of characters: drop whitespace from
both ends. -/
def stripL (l : List Char) : List Char :=
  ((l.dropWhile Char.isWhitespace).reverse.dropWhile Char.isWhitespace).reverse

/-- Python `str.title()` on a list of characters (ASCII model): a cased
character that follows a cased character is lowercased, one that starts
a run of cased characters is uppercased.  The flag records whether the
previous character was cased. -/
def titleL : Bool → List Char → List Char
  | _, [] => []
  | prev, c :: cs =>
    if c.isAlpha then (if prev then c.toLower else c.toUpper) :: titleL true cs
    else c :: titleL false cs

/-- `s.strip().title()` as applied to every text column by app.py line 106. -/
def canonStr (s : String) : String :=
  String.mk (titleL false (stripL s.data))

/-! ## Cells, rows, tables -/

/-- One DataFrame cell: a string, a (numeric) value, a parsed timestamp in
milliseconds since the epoch, or missing (`NaN`/`NaT`). -/
inductive Cell where
  | str (s : String)
  | num (n : Int)
  | time (t : Int)
  | missing
  deriving DecidableEq

/-- One record: an association list from column name to cell, as produced
by `pd.json_normalize` (app.py line 28) after flattening. -/
abbrev Row := List (String × Cell)

/-- A DataFrame: an ordered column list plus the rows in order. -/
structure Table where
  cols : List String
  rows : List Row
  deriving DecidableEq

/-- Cell lookup in a row; a key absent from a record is `NaN` in the
DataFrame built by `pd.json_normalize`, hence `missing` here. -/
def getCell (r : Row) (c : String) : Cell :=
  match r.find? (fun p => decide (p.1 = c)) with
  | some p => p.2
  | none => Cell.missing

/-! ## Paginated fetcher (app.py lines 19-29) -/

/-- One page of the paginated API response: a `results` list and an
optional `next` cursor URL. -/
structure Page where
  results : List Row
  next : Option String
  deriving DecidableEq

/-- Truthiness of the `next` field, as tested by `while url:` (line 22):
the loop continues exactly when `next` is present and non-empty. -/
def nextNonempty : Option String → Bool
  | none => false
  | some u => decide (u ≠ "")

/-- The fetch loop (lines 20-27): extend the accumulator with the page's
`results`; continue while the page's `next` cursor is truthy. -/
def fetchGo (acc : List Row) : List Page → List Row
  | [] => acc
  | p :: ps =>
    if nextNonempty p.next then fetchGo (acc ++ p.results) ps else acc ++ p.results

/-- First-encounter deduplication, accumulator form: keep each element's
first occurrence.  This models the insertion-ordered hash table that
pandas uses for unique keys and `value_counts` groups. -/
def dedupFirstGo {α : Type} [DecidableEq α] (seen : List α) : List α → List α
  | [] => []
  | a :: as => if a ∈ seen then dedupFirstGo seen as else a :: dedupFirstGo (a :: seen) as

/-- Distinct elements of a list in first-encounter order. -/
def dedupFirst {α : Type} [DecidableEq α] (l : List α) : List α :=
  dedupFirstGo [] l

/-- All keys of all records, in order (used for the column set of
`pd.json_normalize`). -/
def allKeys (rs : List Row) : List String :=
  (rs.map (fun r => r.map Prod.fst)).flatten

/-- The fetcher `fetch_data` (lines 19-29) run against a page sequence:
accumulate `results` across pages and build the DataFrame, whose rows are
the accumulated records in order and whose columns are the record keys in
first-encounter order. -/
def fetch_data (pages : List Page) : Table :=
  let recs := fetchGo [] pages
  { cols := dedupFirst (allKeys recs), rows := recs }

/-- Well-formedness of a multi-page response sequence: every page but the
last carries a truthy `next` cursor, and the last page's `next` is
absent / null / empty. -/
def wfPages : List Page → Bool
  | [] => true
  | p :: ps =>
    (if ps.isEmpty then !(nextNonempty p.next) else nextNonempty p.next) && wfPages ps

/-! ## Normalizer (app.py lines 87-106) -/

/-- The fixed allowed column list `cols` of app.py lines 87-95. -/
def KCOLS : List String :=
  [("_submission_time"), ("institution_name"), ("field_of_study"),
   ("education_level"), ("scholarship_frequency"),
   ("internship_exposure_count"), ("district_of_residence")]

/-- The text columns canonicalised by app.py line 104. -/
def TEXTCOLS : List String :=
  [("institution_name"), ("field_of_study"), ("education_level"),
   ("district_of_residence")]

/-- Digit accumulation for integer parsing. -/
def digitsValGo (acc : Nat) : List Char → Option Nat
  | [] => some acc
  | c :: cs => if c.isDigit then digitsValGo (acc * 10 + (c.toNat - 48)) cs else none

/-- Value of a non-empty all-digit character list. -/
def digitsVal : List Char → Option Nat
  | [] => none
  | c :: cs => if c.isDigit then digitsValGo (c.toNat - 48) cs else none

/-- Integer parsing for `pd.to_numeric`: an optional sign followed by
digits.  Values that are not integer literals (the relevant unparsable
inputs of the claims, e.g. `"abc"`) parse to `none`. -/
def parseNum (s : String) : Option Int :=
  match s.data with
  | [] => none
  | c :: cs =>
    if c = '-' then (digitsVal cs).map (fun n => -(n : Int))
    else (digitsVal (c :: cs)).map (fun n => (n : Int))

/-- Gregorian leap year. -/
def isLeap (y : Int) : Bool :=
  (y % 4 = 0 && y % 100 != 0) || y % 400 = 0

/-- Days in a Gregorian month. -/
def daysInMonth (y m : Int) : Int :=
  if m = 2 then (if isLeap y then 29 else 28)
  else if m = 4 || m = 6 || m = 9 || m = 11 then 30
  else 31

/-- Days since 1970-01-01 of a civil date (Howard Hinnant's algorithm,
truncating division as in the reference formulation). -/
def daysFromCivil (y m d : Int) : Int :=
  let y2 := if m ≤ 2 then y - 1 else y
  let era := (if 0 ≤ y2 then y2 else y2 - 399) / 400
  let yoe := y2 - era * 400
  let doy := (153 * (if 2 < m then m - 3 else m + 9) + 2) / 5 + d - 1
  let doe := yoe * 365 + yoe / 4 - yoe / 100 + doy
  era * 146097 + doe - 719468

/-- Civil date `(y, m, d)` of a number of days since 1970-01-01 (inverse
of `daysFromCivil`). -/
def civilFromDays (z : Int) : Int × Int × Int :=
  let z2 := z + 719468
  let era := (if 0 ≤ z2 then z2 else z2 - 146096) / 146097
  let doe := z2 - era * 146097
  let yoe := (doe - doe / 1460 + doe / 36524 - doe / 146096) / 365
  let y := yoe + era * 400
  let doy := doe - (365 * yoe + yoe / 4 - yoe / 100)
  let mp := (5 * doy + 2) / 153
  let d := doy - (153 * mp + 2) / 5 + 1
  let m := if mp < 10 then mp + 3 else mp - 9
  ((if m ≤ 2 then y + 1 else y), m, d)

/-- Split a character list on a separator character. -/
def splitOnC (sep : Char) : List Char → List (List Char)
  | [] => [[]]
  | c :: cs =>
    let r := splitOnC sep cs
    if c = sep then [] :: r
    else
      match r with
      | h :: t => (c :: h) :: t
      | [] => [[c]]

/-- Milliseconds of a fractional-second digit string (`".5"` is 500 ms;
digits beyond millisecond precision are truncated). -/
def msOfFrac (l : List Char) : Option Nat :=
  match digitsVal l with
  | none => none
  | some v =>
    if l.length ≤ 3 then some (v * 10 ^ (3 - l.length))
    else some (v / 10 ^ (l.length - 3))

/-- Milliseconds within the day of a clock string `HH:MM[:SS[.fff]]`. -/
def parseClock (l : List Char) : Option Int :=
  match (splitOnC ':' l).map id with
  | [hh, mm] =>
    match digitsVal hh, digitsVal mm with
    | some h, some m =>
      if h ≤ 23 && m ≤ 59 then some (((h * 60 + m) * 60 : Int) * 1000) else none
    | _, _ => none
  | [hh, mm, ssf] =>
    match digitsVal hh, digitsVal mm with
    | some h, some m =>
      if h ≤ 23 && m ≤ 59 then
        match splitOnC '.' ssf with
        | [ss] =>
          match digitsVal ss with
          | some s => if s ≤ 59 then some ((((h * 60 + m) * 60 + s : Int)) * 1000) else none
          | none => none
        | [ss, fr] =>
          match digitsVal ss, msOfFrac fr with
          | some s, some f =>
            if s ≤ 59 then some ((((h * 60 + m) * 60 + s : Int)) * 1000 + f) else none
          | _, _ => none
        | _ => none
      else none
    | _, _ => none
  | _ => none

/-- Timestamp parsing for `pd.to_datetime` (app.py line 99): an ISO-style
date `YYYY-MM-DD`, optionally followed by `T` or a space and a clock,
yields milliseconds since the epoch; anything else is unparsable. -/
def parseDate (s : String) : Option Int :=
  let l := s.data
  let dateTime : List Char × Option (List Char) :=
    match splitOnC 'T' l with
    | [d, t] => (d, some t)
    | [d] =>
      match splitOnC ' ' d with
      | [d2, t2] => (d2, some t2)
      | [d2] => (d2, none)
      | _ => ([], none)
    | _ => ([], none)
  match (splitOnC '-' dateTime.1).map digitsVal with
  | [some y, some m, some d] =>
    if 1 ≤ (m : Int) && (m : Int) ≤ 12 && 1 ≤ (d : Int) && (d : Int) ≤ daysInMonth y m then
      let base := daysFromCivil y m d * 86400000
      match dateTime.2 with
      | none => some base
      | some tl =>
        match parseClock tl with
        | some ms => some (base + ms)
        | none => none
    else none
  | _ => none

/-- `pd.to_datetime` (line 99, default `errors="raise"`) applied to one
cell: already-parsed timestamps and `NaT`/`None` pass through, strings
must parse, integers are interpreted as epoch offsets; an unparsable
string raises. -/
def toTimeCell : Cell → Except String Cell
  | Cell.str s =>
    match parseDate s with
    | some τ => Except.ok (Cell.time τ)
    | none => Except.error ((("ValueError: could not parse ") ++ s))
  | Cell.num n => Except.ok (Cell.time n)
  | Cell.time τ => Except.ok (Cell.time τ)
  | Cell.missing => Except.ok Cell.missing

/-- `pd.to_numeric(col, errors="coerce").fillna(0)` (line 102) applied to
one cell: numbers pass through, parsable strings become their value,
unparsable strings and missing values become `0`. -/
def toNumCell : Cell → Cell
  | Cell.str s =>
    match parseNum s with
    | some n => Cell.num n
    | none => Cell.num 0
  | Cell.num n => Cell.num n
  | Cell.time τ => Cell.num τ
  | Cell.missing => Cell.num 0

/-- `col.astype(str).str.strip().str.title()` (line 106) applied to one
cell: non-strings are rendered to their Python string form first (`NaN`
renders as `"nan"`). -/
def toTextCell : Cell → Cell
  | Cell.str s => Cell.str (canonStr s)
  | Cell.num n => Cell.str (canonStr (toString n))
  | Cell.time τ => Cell.str (canonStr (toString τ))
  | Cell.missing => Cell.str (canonStr ("nan"))

/-- Apply a fallible cell transform to the cells stored under column `c`
of one row, propagating the first raised error. -/
def mapRowE (c : String) (f : Cell → Except String Cell) : Row → Except String Row
  | [] => Except.ok []
  | (k, v) :: ps =>
    match (if k = c then f v else Except.ok v), mapRowE c f ps with
    | Except.ok v2, Except.ok ps2 => Except.ok ((k, v2) :: ps2)
    | Except.error m, _ => Except.error m
    | _, Except.error m => Except.error m

/-- `mapRowE` over every row of a list. -/
def mapRowsE (c : String) (f : Cell → Except String Cell) : List Row → Except String (List Row)
  | [] => Except.ok []
  | r :: rs =>
    match mapRowE c f r, mapRowsE c f rs with
    | Except.ok r2, Except.ok rs2 => Except.ok (r2 :: rs2)
    | Except.error m, _ => Except.error m
    | _, Except.error m => Except.error m

/-- Apply a total cell transform to the cells stored under column `c` of
one row. -/
def mapRow (c : String) (f : Cell → Cell) (r : Row) : Row :=
  r.map (fun p => if p.1 = c then (p.1, f p.2) else p)

/-- Column assignment `df[c] = f(df[c])` guarded by `if c in df.columns`
(the shape of every cleaning step, app.py lines 98-106). -/
def mapCol (c : String) (f : Cell → Cell) (t : Table) : Table :=
  if c ∈ t.cols then { t with rows := t.rows.map (mapRow c f) } else t

/-- Fallible column assignment for `pd.to_datetime` (line 99), guarded by
`if "_submission_time" in df.columns` (line 98). -/
def mapColE (c : String) (f : Cell → Except String Cell) (t : Table) : Except String Table :=
  if c ∈ t.cols then
    match mapRowsE c f t.rows with
    | Except.ok rs => Except.ok { t with rows := rs }
    | Except.error m => Except.error m
  else Except.ok t

/-- `df[[c for c in cols if c in df.columns]]` (line 96): restrict to the
allowed columns actually present, in the fixed order of `cols`; every
surviving row holds exactly the chosen columns. -/
def selectCols (t : Table) : Table :=
  let chosen := KCOLS.filter (fun c => decide (c ∈ t.cols))
  { cols := chosen, rows := t.rows.map (fun r => chosen.map (fun c => (c, getCell r c))) }

/-- The Normalizer: the data-cleaning block of app.py lines 87-106.
Column selection, then timestamp parsing (which can raise), then numeric
coercion of `internship_exposure_count`, then text canonicalisation of
the four text columns. -/
def normalize (t : Table) : Except String Table :=
  match mapColE ("_submission_time") toTimeCell (selectCols t) with
  | Except.error m => Except.error m
  | Except.ok t2 =>
    let t3 := mapCol ("internship_exposure_count") toNumCell t2
    Except.ok (TEXTCOLS.foldl (fun acc c => mapCol c toTextCell acc) t3)

/-! ## Filter Engine (app.py lines 112-142) -/

/-- A sidebar filter: a categorical equality filter (`filter_col`,
lines 112-118) or the inclusive date-range filter (lines 136-142) with
explicit millisecond bounds. -/
inductive FilterSpec where
  | cat (col sel : String)
  | dateRange (startMs endMs : Int)
  deriving DecidableEq

/-- The condition under which a filter actually restricts the table:
`filter_col` requires the column to be present (line 113) and the
selection to differ from the sentinel `"All"` (line 116); the date
filter requires `_submission_time` to be present (line 127). -/
def condOf : FilterSpec → List String → Bool
  | FilterSpec.cat c sel, cols => decide (c ∈ cols) && decide (sel ≠ ("All"))
  | FilterSpec.dateRange _ _, cols => decide (("_submission_time") ∈ cols)

/-- The row predicate of a filter.  `df[col] == sel` (line 117) is false
for `NaN` and for non-equal values; the date mask (lines 139-142) is
false for `NaT` and non-timestamp cells. -/
def predOf : FilterSpec → Row → Bool
  | FilterSpec.cat c sel, r => decide (getCell r c = Cell.str sel)
  | FilterSpec.dateRange s e, r =>
    match getCell r ("_submission_time") with
    | Cell.time τ => decide (s ≤ τ) && decide (τ ≤ e)
    | _ => false

/-- A conditional row filter: restrict the rows when the condition on the
column list holds, otherwise pass the table through.  Both source
filters have this shape; neither changes the column list. -/
def condFilter (b : List String → Bool) (p : Row → Bool) (t : Table) : Table :=
  if b t.cols then { t with rows := t.rows.filter p } else t

/-- Apply one sidebar filter to the table. -/
def applyFilter (F : FilterSpec) (t : Table) : Table :=
  condFilter (condOf F) (predOf F) t

/-- Sequential application of filters, as in the loop of lines 120-121
followed by the date filter. -/
def applyFilters (fs : List FilterSpec) (t : Table) : Table :=
  fs.foldl (fun acc F => applyFilter F acc) t

/-- The date filter exactly as the code builds its bounds (lines
137-138): `start = to_datetime(start_date)` is midnight of the start
day, `end = to_datetime(end_date) + 1 day - 1 second`, i.e. 23:59:59.000
of the end day. -/
def dateFilterCode (startDay endDay : Int) (t : Table) : Table :=
  applyFilter
    (FilterSpec.dateRange (startDay * 86400000) (endDay * 86400000 + 86400000 - 1000)) t

/-- Modelled from the spec: the end bound the specification claims,
`end` inclusive of the entire end-day, "end date at 23:59:59.999 local"
(in milliseconds, the last millisecond of the end day).  Stated for
comparison with the bound the code computes in `dateFilterCode`. -/
def dateRangeEndSpec (endDay : Int) : Int :=
  endDay * 86400000 + 86399999

/-! ## Aggregation primitives -/

/-- Index of the first occurrence of `v` in `l` (length of `l` when
absent). -/
def firstIdx {α : Type} [DecidableEq α] : List α → α → Nat
  | [], _ => 0
  | a :: as, v => if a = v then 0 else firstIdx as v + 1

/-- The values of one column in row order, missing values dropped — the
series seen by `value_counts()` / `nunique()`, which exclude `NaN`. -/
def colValues (t : Table) (c : String) : List Cell :=
  (t.rows.map (fun r => getCell r c)).filter (fun v => decide (v ≠ Cell.missing))

/-- `value_counts()` before sorting: each distinct value in
first-encounter order, paired with its count. -/
def valueCountsList (l : List Cell) : List (Cell × Nat) :=
  (dedupFirst l).map (fun v => (v, l.count v))

/-- Stable descending insertion by count: the inserted element goes in
front of the first element whose count it ties or beats, so earlier
elements win ties. -/
def insertDesc {α : Type} (p : α × Nat) : List (α × Nat) → List (α × Nat)
  | [] => [p]
  | q :: qs => if q.2 ≤ p.2 then p :: q :: qs else q :: insertDesc p qs

/-- Stable sort of labelled counts, descending by count (the order of
`value_counts()`, whose ties keep first-encounter order). -/
def sortCountsDesc {α : Type} (l : List (α × Nat)) : List (α × Nat) :=
  l.foldr insertDesc []

/-- `value_counts().nlargest(n).index` (app.py lines 181-183): the `n`
most frequent values, ties broken by first encounter. -/
def topN (n : Nat) (l : List Cell) : List Cell :=
  ((sortCountsDesc (valueCountsList l)).take n).map Prod.fst

/-! ## Time grouping (app.py lines 125, 151-154) -/

/-- The `Weekly` / `Monthly` radio selection (line 125). -/
inductive TimeGroup where
  | weekly
  | monthly
  deriving DecidableEq

/-- `to_period("W").start_time` in milliseconds: midnight of the Monday
of the timestamp's week (1970-01-01 was a Thursday). -/
def weekStartMs (τ : Int) : Int :=
  let d := τ.ediv 86400000
  (d - (d + 3).emod 7) * 86400000

/-- `to_period("M").start_time` in milliseconds: midnight of the first of
the timestamp's month. -/
def monthStartMs (τ : Int) : Int :=
  let d := τ.ediv 86400000
  let c := civilFromDays d
  daysFromCivil c.1 c.2.1 1 * 86400000

/-- Bucket start for the selected granularity (lines 151-154). -/
def bucketStart (g : TimeGroup) (τ : Int) : Int :=
  match g with
  | TimeGroup.weekly => weekStartMs τ
  | TimeGroup.monthly => monthStartMs τ

/-- The `.dt.to_period(...).start_time` computation on one cell: defined
on timestamps, passes `NaT` through, and raises on non-datetime values
(the `.dt` accessor requires a datetime-like column). -/
def bucketCell (g : TimeGroup) : Cell → Except String Cell
  | Cell.time τ => Except.ok (Cell.time (bucketStart g τ))
  | Cell.missing => Except.ok Cell.missing
  | _ => Except.error (("AttributeError: Can only use .dt accessor with datetimelike values"))

/-- Append the `time_group` cell to every row. -/
def addTimeGroupRows (g : TimeGroup) : List Row → Except String (List Row)
  | [] => Except.ok []
  | r :: rs =>
    match bucketCell g (getCell r ("_submission_time")), addTimeGroupRows g rs with
    | Except.ok v, Except.ok rs2 => Except.ok ((r ++ [(("time_group"), v)]) :: rs2)
    | Except.error m, _ => Except.error m
    | _, Except.error m => Except.error m

/-- The `time_group` column assignment (lines 151-154):
`filtered_df["time_group"] = filtered_df["_submission_time"].dt...`.
Reading `_submission_time` is unguarded, so an absent column raises
`KeyError`; the new column is appended after the existing columns. -/
def addTimeGroup (g : TimeGroup) (t : Table) : Except String Table :=
  if ("_submission_time") ∈ t.cols then
    match addTimeGroupRows g t.rows with
    | Except.ok rs => Except.ok { cols := t.cols ++ [("time_group")], rows := rs }
    | Except.error m => Except.error m
  else Except.error (("KeyError: _submission_time"))

/-! ## Render tabs (app.py lines 164-277) -/

/-- `nunique()` of a column (`NaN` excluded). -/
def nuniqueCol (t : Table) (c : String) : Nat :=
  (dedupFirst (colValues t c)).length

/-- Numeric value of a cell for summation (non-numeric contributes 0;
after coercion the summed columns hold only numbers). -/
def cellNum : Cell → Int
  | Cell.num n => n
  | _ => 0

/-- `df[c].sum()` (`NaN` skipped). -/
def sumCol (t : Table) (c : String) : Int :=
  ((colValues t c).map cellNum).sum

/-- The KPI tab's outputs (app.py lines 164-188). -/
structure Kpis where
  totalSubmissions : Nat
  uniqueInstitutions : Nat
  totalInternships : Int
  uniqueDistricts : Nat
  topInst : List Cell
  topField : List Cell
  topDist : List Cell
  deriving DecidableEq

/-- The KPI tab (lines 164-188).  The scalar KPIs guard column presence
(lines 169-171); the three top-3 rankings (lines 181-183) read
`institution_name`, `field_of_study` and `district_of_residence` without
any guard, raising `KeyError` when absent. -/
def kpisTab (t : Table) : Except String Kpis :=
  let totalSubmissions := t.rows.length
  let uniqueInstitutions :=
    if ("institution_name") ∈ t.cols then nuniqueCol t ("institution_name") else 0
  let totalInternships :=
    if ("internship_exposure_count") ∈ t.cols then sumCol t ("internship_exposure_count") else 0
  let uniqueDistricts :=
    if ("district_of_residence") ∈ t.cols then nuniqueCol t ("district_of_residence") else 0
  if ("institution_name") ∈ t.cols then
    if ("field_of_study") ∈ t.cols then
      if ("district_of_residence") ∈ t.cols then
        Except.ok
          { totalSubmissions, uniqueInstitutions, totalInternships, uniqueDistricts,
            topInst := topN 3 (colValues t ("institution_name")),
            topField := topN 3 (colValues t ("field_of_study")),
            topDist := topN 3 (colValues t ("district_of_residence")) }
      else Except.error (("KeyError: district_of_residence"))
    else Except.error (("KeyError: field_of_study"))
  else Except.error (("KeyError: institution_name"))

/-- CSV rendering of one cell (`to_csv` writes `NaN` as empty). -/
def cellCsv : Cell → String
  | Cell.str s => s
  | Cell.num n => toString n
  | Cell.time τ => toString τ
  | Cell.missing => ("")

/-- `df.to_csv(index=False)` (line 199) as a list of records: the header
row is the column list in order, then each row's cells in column
order. -/
def csvTable (t : Table) : List (List String) :=
  t.cols :: t.rows.map (fun r => t.cols.map (fun c => cellCsv (getCell r c)))

/-- The Data Table tab's outputs (lines 193-220). -/
structure DataTabOut where
  csv : List (List String)
  eduPie : Option (List (Cell × Nat))
  instPie : List (Cell × Nat)
  deriving DecidableEq

/-- The Data Table tab (lines 193-220): CSV export of the presented
table, the education pie (guarded, line 206), and the institution pie
(unguarded read of `institution_name`, line 215). -/
def dataTab (t : Table) : Except String DataTabOut :=
  let csv := csvTable t
  let eduPie :=
    if ("education_level") ∈ t.cols then
      some (valueCountsList (colValues t ("education_level")))
    else none
  if ("institution_name") ∈ t.cols then
    Except.ok { csv, eduPie, instPie := valueCountsList (colValues t ("institution_name")) }
  else Except.error (("KeyError: institution_name"))

/-- Total comparison of group keys, used to model the ascending key
order of `groupby`. -/
def cellLeB : Cell → Cell → Bool
  | Cell.str a, Cell.str b => decide (a < b) || decide (a = b)
  | Cell.str _, _ => true
  | Cell.num a, Cell.num b => decide (a ≤ b)
  | Cell.num _, Cell.str _ => false
  | Cell.num _, _ => true
  | Cell.time a, Cell.time b => decide (a ≤ b)
  | Cell.time _, Cell.missing => true
  | Cell.time _, _ => false
  | Cell.missing, Cell.missing => true
  | Cell.missing, _ => false

/-- Stable ascending insertion by group key. -/
def insertKeyAsc {β : Type} (p : Cell × β) : List (Cell × β) → List (Cell × β)
  | [] => [p]
  | q :: qs => if cellLeB p.1 q.1 then p :: q :: qs else q :: insertKeyAsc p qs

/-- Stable sort by ascending group key (`groupby` sorts groups). -/
def sortByKeyAsc {β : Type} (l : List (Cell × β)) : List (Cell × β) :=
  l.foldr insertKeyAsc []

/-- `df.groupby(c).size()` (line 228): counts per group key, keys
ascending. -/
def groupbyCount (t : Table) (c : String) : List (Cell × Nat) :=
  sortByKeyAsc (valueCountsList (colValues t c))

/-- `df.groupby(k)[v].sum()` (lines 249, 263): per group key, the sum of
the value column over the group's rows, keys ascending (`NaN` keys
dropped, `NaN` values skipped). -/
def groupbySum (t : Table) (k v : String) : List (Cell × Int) :=
  sortByKeyAsc
    ((dedupFirst (colValues t k)).map (fun g =>
      (g, ((t.rows.filter (fun r => decide (getCell r k = g))).map
            (fun r => cellNum (getCell r v))).sum)))

/-- Stable descending insertion by summed value. -/
def insertValDesc (p : Cell × Int) : List (Cell × Int) → List (Cell × Int)
  | [] => [p]
  | q :: qs => if q.2 ≤ p.2 then p :: q :: qs else q :: insertValDesc p qs

/-- `sort_values(by=..., ascending=False)` (line 264). -/
def sortByValDesc (l : List (Cell × Int)) : List (Cell × Int) :=
  l.foldr insertValDesc []

/-- The Charts tab's outputs (lines 225-277). -/
structure ChartsOut where
  timeCounts : List (Cell × Nat)
  fieldCounts : List (Cell × Nat)
  internByDistrict : Option (List (Cell × Int))
  schByInst : Option (List (Cell × Int))
  deriving DecidableEq

/-- The in-place numeric coercion of `scholarship_frequency` (line 260),
performed only inside the charts tab and only under the guard of line
258 (`institution_name` and `scholarship_frequency` both present). -/
def chartsStage (t : Table) : Table :=
  if ("institution_name") ∈ t.cols ∧ ("scholarship_frequency") ∈ t.cols then
    mapCol ("scholarship_frequency") toNumCell t
  else t

/-- The Charts tab (lines 225-277): submissions over time (unguarded
read of `time_group`, line 228), students per field (unguarded read of
`field_of_study`, line 240), internship exposure by district (guarded,
line 248) and scholarship frequency by institution (guarded, line 258,
computed on the table after the line-260 coercion). -/
def chartsTab (t : Table) : Except String ChartsOut :=
  if ("time_group") ∈ t.cols then
    if ("field_of_study") ∈ t.cols then
      Except.ok
        { timeCounts := groupbyCount t ("time_group"),
          fieldCounts := groupbyCount t ("field_of_study"),
          internByDistrict :=
            if ("district_of_residence") ∈ t.cols ∧ ("internship_exposure_count") ∈ t.cols then
              some (groupbySum t ("district_of_residence") ("internship_exposure_count"))
            else none,
          schByInst :=
            if ("institution_name") ∈ t.cols ∧ ("scholarship_frequency") ∈ t.cols then
              some (sortByValDesc (groupbySum t ("institution_name") ("scholarship_frequency")))
            else none }
    else Except.error (("KeyError: field_of_study"))
  else Except.error (("KeyError: time_group"))

/-- Everything the script renders after the empty-table guard. -/
structure RenderOut where
  kpis : Kpis
  presented : Table
  dataOut : DataTabOut
  charts : ChartsOut
  deriving DecidableEq

/-- The part of the script after the guard of lines 144-146, in source
order: the `time_group` assignment (151-154), the KPI tab (164-188), the
Data Table tab with its CSV export (193-220; note it executes before the
charts tab, which starts at line 225), then the charts tab on the table
mutated by the line-260 coercion.  `presented` is the table shown by
`st.dataframe` and exported as CSV (lines 196-202). -/
def renderAfterGuard (g : TimeGroup) (t : Table) : Except String RenderOut :=
  match addTimeGroup g t with
  | Except.error m => Except.error m
  | Except.ok tg =>
    match kpisTab tg with
    | Except.error m => Except.error m
    | Except.ok k =>
      match dataTab tg with
      | Except.error m => Except.error m
      | Except.ok dOut =>
        match chartsTab (chartsStage tg) with
        | Except.error m => Except.error m
        | Except.ok ch => Except.ok { kpis := k, presented := tg, dataOut := dOut, charts := ch }

/-- Terminal states of one script run: a caught fetch failure
(`st.error` + `st.stop`, lines 80-82), an uncaught exception raised
after the fetch, the empty-result stop (`st.warning` + `st.stop`, lines
144-146), or a full render. -/
inductive PipelineResult where
  | fetchError (m : String)
  | uncaughtError (m : String)
  | emptyResult
  | rendered (o : RenderOut)
  deriving DecidableEq

/-- One full script run: fetch (with its try/except), cleaning, sidebar
filters, the empty-table guard, then rendering. -/
def runPipeline (fetched : Except String Table) (fs : List FilterSpec) (g : TimeGroup) :
    PipelineResult :=
  match fetched with
  | Except.error m => PipelineResult.fetchError m
  | Except.ok df =>
    match normalize df with
    | Except.error m => PipelineResult.uncaughtError m
    | Except.ok nt =>
      let ft := applyFilters fs nt
      if ft.rows.isEmpty then PipelineResult.emptyResult
      else
        match renderAfterGuard g ft with
        | Except.error m => PipelineResult.uncaughtError m
        | Except.ok o => PipelineResult.rendered o

/-- The CSV the user can download from a run (empty when the run did not
reach the Data Table tab). -/
def csvOfResult : PipelineResult → List (List String)
  | PipelineResult.rendered o => o.dataOut.csv
  | _ => []

/-- The presented (Data Table tab) table of a run, when one was rendered. -/
def presentedOf : PipelineResult → Table
  | PipelineResult.rendered o => o.presented
  | _ => { cols := [], rows := [] }

/-- Whether a run reached a full render. -/
def isRendered : PipelineResult → Bool
  | PipelineResult.rendered _ => true
  | _ => false

/-- The scholarship-by-institution chart data of a run. -/
def schOf : PipelineResult → Option (List (Cell × Int))
  | PipelineResult.rendered o => o.charts.schByInst
  | _ => none

/-- Whether a fallible cell computation succeeded. -/
def isOkE : Except String Cell → Bool
  | Except.ok _ => true
  | Except.error _ => false

/-! ## Invariants of normalized tables -/

/-- A cell is in normal form for its column: a `_submission_time` cell is
a fixed point of timestamp parsing, an `internship_exposure_count` cell
of numeric coercion, and a text-column cell of text canonicalisation. -/
def cellOK (c : String) (v : Cell) : Prop :=
  (c = ("_submission_time") → toTimeCell v = Except.ok v) ∧
  (c = ("internship_exposure_count") → toNumCell v = v) ∧
  (c ∈ TEXTCOLS → toTextCell v = v)

/-- A row is in normal form relative to a column list: its keys are
exactly the columns in order and every cell is in normal form. -/
def RowOK (cols : List String) (r : Row) : Prop :=
  r.map Prod.fst = cols ∧ ∀ p ∈ r, cellOK p.1 p.2

/-- A table is in the Normalizer's image shape: its columns are a
sublist of the allowed columns and all rows are in normal form. -/
def Canonical (t : Table) : Prop :=
  t.cols.Sublist KCOLS ∧ ∀ r ∈ t.rows, RowOK t.cols r

/-- Every cell stored under key `c` in the row satisfies `P`. -/
def cellsAt (c : String) (P : Cell → Prop) (r : Row) : Prop :=
  ∀ p ∈ r, p.1 = c → P p.2

/-- Every cell of column `c` in the table satisfies `P`. -/
def colOK (c : String) (P : Cell → Prop) (t : Table) : Prop :=
  ∀ r ∈ t.rows, cellsAt c P r

/-! ## Concrete inputs used by the closed witnesses and counterexamples -/

/-- A raw fetched table carrying a parsable timestamp, three text
columns and an unparsable `scholarship_frequency` value. -/
def rawA : Table :=
  { cols := [("institution_name"), ("_submission_time"), ("field_of_study"),
             ("district_of_residence"), ("scholarship_frequency")],
    rows := [[(("institution_name"), Cell.str (" acme u ")),
              (("_submission_time"), Cell.str ("2024-01-05T10:00:00")),
              (("field_of_study"), Cell.str ("science")),
              (("district_of_residence"), Cell.str ("kampala")),
              (("scholarship_frequency"), Cell.str ("abc"))]] }

/-- The Normalizer's output on `rawA`. -/
def rawAN : Table :=
  { cols := [("_submission_time"), ("institution_name"), ("field_of_study"),
             ("scholarship_frequency"), ("district_of_residence")],
    rows := [[(("_submission_time"), Cell.time 1704448800000),
              (("institution_name"), Cell.str ("Acme U")),
              (("field_of_study"), Cell.str ("Science")),
              (("scholarship_frequency"), Cell.str ("abc")),
              (("district_of_residence"), Cell.str ("Kampala"))]] }

/-- A one-column raw table. -/
def tInst : Table :=
  { cols := [("institution_name")],
    rows := [[(("institution_name"), Cell.str (" acme u "))]] }

/-- The Normalizer's output on `tInst`. -/
def tInstN : Table :=
  { cols := [("institution_name")],
    rows := [[(("institution_name"), Cell.str ("Acme U"))]] }

/-- A raw table whose timestamp value `pd.to_datetime` cannot parse. -/
def tBadTs : Table :=
  { cols := [("_submission_time")],
    rows := [[(("_submission_time"), Cell.str ("not a date"))]] }

/-- A table with one record timestamped 1970-01-01 23:59:59.999. -/
def tEndDay : Table :=
  { cols := [("_submission_time")],
    rows := [[(("_submission_time"), Cell.time 86399999)]] }

/-- A table with one record timestamped 1970-01-01 23:59:59.000. -/
def tEndSec : Table :=
  { cols := [("_submission_time")],
    rows := [[(("_submission_time"), Cell.time 86399000)]] }

/-- A two-page response: the first page names a next cursor, the second
ends the sequence. -/
def pagesW : List Page :=
  [{ results := [[(("a"), Cell.num 1)], [(("a"), Cell.num 2)]], next := some ("page2") },
   { results := [[(("a"), Cell.num 3)]], next := none }]

/-- A table whose institution column has counts A:5, B:5, C:3 with A
first encountered before B. -/
def tTie : Table :=
  { cols := [("institution_name")],
    rows := [[(("institution_name"), Cell.str ("A"))],
             [(("institution_name"), Cell.str ("B"))],
             [(("institution_name"), Cell.str ("A"))],
             [(("institution_name"), Cell.str ("B"))],
             [(("institution_name"), Cell.str ("A"))],
             [(("institution_name"), Cell.str ("C"))],
             [(("institution_name"), Cell.str ("B"))],
             [(("institution_name"), Cell.str ("A"))],
             [(("institution_name"), Cell.str ("B"))],
             [(("institution_name"), Cell.str ("A"))],
             [(("institution_name"), Cell.str ("C"))],
             [(("institution_name"), Cell.str ("B"))],
             [(("institution_name"), Cell.str ("C"))]] }

/-- A filtered table lacking `institution_name` but carrying the other
columns the render path reads. -/
def tNoInst : Table :=
  { cols := [("_submission_time"), ("field_of_study"), ("district_of_residence")],
    rows := [[(("_submission_time"), Cell.time 0),
              (("field_of_study"), Cell.str ("Science")),
              (("district_of_residence"), Cell.str ("Kampala"))]] }

/-- A filtered table carrying all four columns the render path reads
without a guard. -/
def tFour : Table :=
  { cols := [("_submission_time"), ("institution_name"), ("field_of_study"),
             ("district_of_residence")],
    rows := [[(("_submission_time"), Cell.time 0),
              (("institution_name"), Cell.str ("Acme U")),
              (("field_of_study"), Cell.str ("Science")),
              (("district_of_residence"), Cell.str ("Kampala"))]] }

example : canonStr (" acme u ") = ("Acme U") := by decide
example : parseDate ("2024-02-29") = some 1709164800000 := by decide
example : parseDate ("not a date") = none := by decide
example : parseDate ("2024-02-29T23:59:59.5") = some (1709164800000 + 86399500) := by decide
example : parseNum ("abc") = none := by decide
example : parseNum ("-17") = some (-17) := by decide

/-! # Theorems -/

/-! ## The fetch loop (claim C1) -/

theorem fetchGo_wf : ∀ (ps : List Page) (acc : List Row), wfPages ps = true →
    fetchGo acc ps = acc ++ (ps.map Page.results).flatten := by
  intro ps
  induction ps with
  | nil => intro acc _; simp [fetchGo]
  | cons p ps ih =>
    intro acc hwf
    rw [wfPages, Bool.and_eq_true] at hwf
    cases ps with
    | nil =>
      have hn : nextNonempty p.next = false := by
        simpa using hwf.1
      simp [fetchGo, hn]
    | cons q qs =>
      have hn : nextNonempty p.next = true := by
        simpa using hwf.1
      rw [fetchGo, if_pos hn, ih _ hwf.2]
      simp

/-- Claim C1: for every well-formed multi-page response sequence, the
Fetcher's output table's rows are the concatenation of the pages'
result lists in page order (order-preserving), and its row count is the
sum of the pages' result-list lengths. -/
theorem claim_C1 (pages : List Page) (h : wfPages pages = true) :
    (fetch_data pages).rows = (pages.map Page.results).flatten ∧
    (fetch_data pages).rows.length = (pages.map (fun p => p.results.length)).sum := by
  have hrows : (fetch_data pages).rows = (pages.map Page.results).flatten := by
    show fetchGo [] pages = _
    rw [fetchGo_wf pages [] h]
    simp
  refine ⟨hrows, ?_⟩
  rw [hrows, List.length_flatten, List.map_map]
  rfl

theorem claim_C1_witness :
    wfPages pagesW = true ∧
    ((fetch_data pagesW).rows = (pagesW.map Page.results).flatten ∧
     (fetch_data pagesW).rows.length = (pagesW.map (fun p => p.results.length)).sum) :=
  ⟨by decide, claim_C1 pagesW (by decide)⟩

/-! ## Filter commutation (claim C8) -/

theorem condFilter_cols (b : List String → Bool) (p : Row → Bool) (t : Table) :
    (condFilter b p t).cols = t.cols := by
  unfold condFilter
  split <;> rfl

theorem condFilter_comm (b1 b2 : List String → Bool) (p1 p2 : Row → Bool) (t : Table) :
    condFilter b1 p1 (condFilter b2 p2 t) = condFilter b2 p2 (condFilter b1 p1 t) := by
  unfold condFilter
  rcases h2 : b2 t.cols <;> rcases h1 : b1 t.cols <;>
    simp [h1, h2, List.filter_comm]
  exact List.filter_congr (fun a _ => Bool.and_comm _ _)

/-- Claim C8: filter composition is commutative — for every table and
every pair of filters drawn from the categorical equality filters and
the inclusive date-range filter, applying one then the other yields the
same table in either order. -/
theorem claim_C8 (A B : FilterSpec) (t : Table) :
    applyFilter A (applyFilter B t) = applyFilter B (applyFilter A t) := by
  unfold applyFilter
  exact condFilter_comm (condOf A) (condOf B) (predOf A) (predOf B) t

/-! ## The empty-result guard (claim C2) -/

/-- Claim C2: whenever filtering eliminates all rows, the run stops in
the `EmptyResult` state — the aggregation and chart code after the guard
is never invoked — and that state is distinct from every fetch-error
state. -/
theorem claim_C2 (df nt : Table) (fs : List FilterSpec) (g : TimeGroup)
    (hnorm : normalize df = Except.ok nt)
    (hempty : (applyFilters fs nt).rows = []) :
    runPipeline (Except.ok df) fs g = PipelineResult.emptyResult ∧
    ∀ m, PipelineResult.emptyResult ≠ PipelineResult.fetchError m := by
  constructor
  · show (match normalize df with
      | Except.error m => PipelineResult.uncaughtError m
      | Except.ok nt =>
        let ft := applyFilters fs nt
        if ft.rows.isEmpty then PipelineResult.emptyResult
        else
          match renderAfterGuard g ft with
          | Except.error m => PipelineResult.uncaughtError m
          | Except.ok o => PipelineResult.rendered o) = PipelineResult.emptyResult
    rw [hnorm]
    simp [hempty]
  · intro m h
    exact PipelineResult.noConfusion h

theorem claim_C2_witness :
    normalize tInst = Except.ok tInstN ∧
    (applyFilters [FilterSpec.cat ("institution_name") ("Zzz")] tInstN).rows = [] ∧
    (runPipeline (Except.ok tInst) [FilterSpec.cat ("institution_name") ("Zzz")]
        TimeGroup.weekly = PipelineResult.emptyResult ∧
     ∀ m, PipelineResult.emptyResult ≠ PipelineResult.fetchError m) :=
  ⟨by rfl, by decide,
    claim_C2 tInst tInstN [FilterSpec.cat ("institution_name") ("Zzz")] TimeGroup.weekly
      (by rfl) (by decide)⟩

/-! ## Totality of the Normalizer (claim C3) -/

theorem isOkE_iff (e : Except String Cell) : isOkE e = true ↔ ∃ v, e = Except.ok v := by
  cases e with
  | ok v => simp [isOkE]
  | error m => simp [isOkE]

theorem mapRowE_ok (c : String) (f : Cell → Except String Cell) :
    ∀ r : Row, (∀ p ∈ r, p.1 = c → ∃ v, f p.2 = Except.ok v) →
      ∃ r2, mapRowE c f r = Except.ok r2 := by
  intro r
  induction r with
  | nil => intro _; exact ⟨[], rfl⟩
  | cons q ps ih =>
    intro h
    obtain ⟨ps2, hps⟩ := ih (fun p hp => h p (List.mem_cons_of_mem q hp))
    by_cases hk : q.1 = c
    · obtain ⟨v2, hv⟩ := h q (List.mem_cons_self q ps) hk
      refine ⟨(q.1, v2) :: ps2, ?_⟩
      rw [show q = (q.1, q.2) from rfl] at hv ⊢
      simp only [mapRowE, if_pos hk, hv, hps]
    · refine ⟨(q.1, q.2) :: ps2, ?_⟩
      rw [show q = (q.1, q.2) from rfl]
      simp only [mapRowE, if_neg hk, hps]

theorem mapRowsE_ok (c : String) (f : Cell → Except String Cell) :
    ∀ rs : List Row, (∀ r ∈ rs, ∀ p ∈ r, p.1 = c → ∃ v, f p.2 = Except.ok v) →
      ∃ rs2, mapRowsE c f rs = Except.ok rs2 := by
  intro rs
  induction rs with
  | nil => intro _; exact ⟨[], rfl⟩
  | cons r rs ih =>
    intro h
    obtain ⟨r2, hr⟩ := mapRowE_ok c f r (h r (List.mem_cons_self r rs))
    obtain ⟨rs2, hrs⟩ := ih (fun r hr => h r (List.mem_cons_of_mem _ hr))
    exact ⟨r2 :: rs2, by simp only [mapRowsE, hr, hrs]⟩

theorem selectCols_ts_ok (t : Table)
    (h : ∀ r ∈ t.rows, isOkE (toTimeCell (getCell r ("_submission_time"))) = true) :
    ∀ r2 ∈ (selectCols t).rows, ∀ p ∈ r2, p.1 = ("_submission_time") →
      ∃ v, toTimeCell p.2 = Except.ok v := by
  intro r2 hr2 p hp hp1
  simp only [selectCols, List.mem_map] at hr2
  obtain ⟨r, hr, rfl⟩ := hr2
  simp only [List.mem_map] at hp
  obtain ⟨c0, _, rfl⟩ := hp
  simp only at hp1
  subst hp1
  exact (isOkE_iff _).mp (h r hr)

/-- Claim C3 (amended): the Normalizer never fails on tables whose
timestamp values all parse (or are missing); the numeric and text rules
are total.  The unamended totality claim is refuted by
`claim_C3_counterexample`: an unparsable `_submission_time` value makes
`pd.to_datetime` (called without `errors="coerce"`) raise instead of
producing the missing sentinel. -/
theorem claim_C3 (t : Table)
    (h : ∀ r ∈ t.rows, isOkE (toTimeCell (getCell r ("_submission_time"))) = true) :
    ∃ t2, normalize t = Except.ok t2 := by
  by_cases hmem : ("_submission_time") ∈ (selectCols t).cols
  · obtain ⟨rs, hrs⟩ :=
      mapRowsE_ok ("_submission_time") toTimeCell (selectCols t).rows (selectCols_ts_ok t h)
    refine ⟨TEXTCOLS.foldl (fun acc c => mapCol c toTextCell acc)
      (mapCol ("internship_exposure_count") toNumCell { selectCols t with rows := rs }), ?_⟩
    unfold normalize mapColE
    rw [if_pos hmem, hrs]
  · refine ⟨TEXTCOLS.foldl (fun acc c => mapCol c toTextCell acc)
      (mapCol ("internship_exposure_count") toNumCell (selectCols t)), ?_⟩
    unfold normalize mapColE
    rw [if_neg hmem]

theorem claim_C3_counterexample :
    normalize tBadTs = Except.error (("ValueError: could not parse not a date")) := by
  rfl

theorem claim_C3_witness :
    (∀ r ∈ rawA.rows, isOkE (toTimeCell (getCell r ("_submission_time"))) = true) ∧
    ∃ t2, normalize rawA = Except.ok t2 :=
  ⟨by decide, claim_C3 rawA (by decide)⟩

/-! ## The date-range filter (claim C4) -/

theorem claim_C4_counterexample :
    getCell [(("_submission_time"), Cell.time 86399999)] ("_submission_time") =
      Cell.time 86399999 ∧
    ((0 : Int) * 86400000 ≤ 86399999 ∧ (86399999 : Int) ≤ dateRangeEndSpec 0) ∧
    (dateFilterCode 0 0 tEndDay).rows = [] := by
  refine ⟨by decide, ⟨by norm_num, by norm_num [dateRangeEndSpec]⟩, by decide⟩

/-- Claim C4 (amended): the date-range filter keeps exactly the rows
whose timestamp lies in `[startDay 00:00:00.000, endDay 23:59:59.000]` —
the code's end bound is `end_date + 1 day - 1 second`, i.e. 23:59:59.000
of the end day, not the 23:59:59.999 the original claim states (see
`claim_C4_counterexample`); in particular a record timestamped exactly
at the end day's 23:59:59 is retained. -/
theorem claim_C4 (sd ed : Int) (t : Table) (h : ("_submission_time") ∈ t.cols) :
    (dateFilterCode sd ed t).rows =
      t.rows.filter (fun r =>
        match getCell r ("_submission_time") with
        | Cell.time τ => decide (sd * 86400000 ≤ τ ∧ τ ≤ ed * 86400000 + 86399000)
        | _ => false) ∧
    ∀ r ∈ t.rows, getCell r ("_submission_time") = Cell.time (ed * 86400000 + 86399000) →
      sd ≤ ed → r ∈ (dateFilterCode sd ed t).rows := by
  have harith : ed * 86400000 + 86400000 - 1000 = ed * 86400000 + 86399000 := by ring
  have hrows : (dateFilterCode sd ed t).rows =
      t.rows.filter (fun r =>
        match getCell r ("_submission_time") with
        | Cell.time τ => decide (sd * 86400000 ≤ τ ∧ τ ≤ ed * 86400000 + 86399000)
        | _ => false) := by
    unfold dateFilterCode applyFilter condFilter
    rw [if_pos (by simp [condOf, h])]
    refine List.filter_congr ?_
    intro r _
    show predOf _ r = _
    cases hgc : getCell r ("_submission_time") with
    | time τ =>
      simp only [predOf, hgc]
      rw [harith, Bool.decide_and]
    | str s => simp [predOf, hgc]
    | num n => simp [predOf, hgc]
    | missing => simp [predOf, hgc]
  refine ⟨hrows, ?_⟩
  intro r hr hts hsd
  rw [hrows, List.mem_filter]
  refine ⟨hr, ?_⟩
  rw [hts]
  simp only [decide_eq_true_eq]
  omega

theorem claim_C4_witness :
    (("_submission_time") ∈ tEndSec.cols) ∧
    ((dateFilterCode 0 0 tEndSec).rows =
      tEndSec.rows.filter (fun r =>
        match getCell r ("_submission_time") with
        | Cell.time τ => decide ((0 : Int) * 86400000 ≤ τ ∧ τ ≤ (0 : Int) * 86400000 + 86399000)
        | _ => false) ∧
     ∀ r ∈ tEndSec.rows,
       getCell r ("_submission_time") = Cell.time ((0 : Int) * 86400000 + 86399000) →
       (0 : Int) ≤ 0 → r ∈ (dateFilterCode 0 0 tEndSec).rows) :=
  ⟨by decide, claim_C4 0 0 tEndSec (by decide)⟩

/-! ## Numeric-coercion policy (claim C5, counterexample part) -/

theorem claim_C5_counterexample :
    csvOfResult (runPipeline (Except.ok rawA) [] TimeGroup.weekly) =
      [[("_submission_time"), ("institution_name"), ("field_of_study"),
        ("scholarship_frequency"), ("district_of_residence"), ("time_group")],
       [("1704448800000"), ("Acme U"), ("Science"), ("abc"), ("Kampala"),
        ("1704067200000")]] ∧
    schOf (runPipeline (Except.ok rawA) [] TimeGroup.weekly) =
      some [(Cell.str ("Acme U"), 0)] := by
  constructor
  · rfl
  · rfl

/-! ## Unguarded column reads (claim C10, counterexample part) -/

theorem claim_C10_counterexample :
    renderAfterGuard TimeGroup.weekly tNoInst =
      Except.error (("KeyError: institution_name")) := by
  rfl

/-! ## Column bookkeeping through the pipeline stages -/

theorem mapCol_cols (c : String) (f : Cell → Cell) (t : Table) :
    (mapCol c f t).cols = t.cols := by
  unfold mapCol
  split <;> rfl

theorem mapColE_cols (c : String) (f : Cell → Except String Cell) (t t2 : Table)
    (h : mapColE c f t = Except.ok t2) : t2.cols = t.cols := by
  unfold mapColE at h
  by_cases hmem : c ∈ t.cols
  · rw [if_pos hmem] at h
    cases hm : mapRowsE c f t.rows with
    | ok rs => rw [hm] at h; cases h; rfl
    | error m => rw [hm] at h; cases h
  · rw [if_neg hmem] at h
    cases h
    rfl

theorem foldl_mapCol_cols (f : Cell → Cell) :
    ∀ (cs : List String) (t : Table),
      (cs.foldl (fun acc c => mapCol c f acc) t).cols = t.cols := by
  intro cs
  induction cs with
  | nil => intro t; rfl
  | cons c cs ih =>
    intro t
    rw [List.foldl_cons, ih, mapCol_cols]

theorem selectCols_cols (t : Table) :
    (selectCols t).cols = KCOLS.filter (fun c => decide (c ∈ t.cols)) := rfl

theorem normalize_cols (t t2 : Table) (h : normalize t = Except.ok t2) :
    t2.cols = KCOLS.filter (fun c => decide (c ∈ t.cols)) := by
  unfold normalize at h
  cases hm : mapColE ("_submission_time") toTimeCell (selectCols t) with
  | error m => rw [hm] at h; cases h
  | ok tts =>
    rw [hm] at h
    cases h
    rw [foldl_mapCol_cols, mapCol_cols, mapColE_cols _ _ _ _ hm, selectCols_cols]

theorem applyFilter_cols (F : FilterSpec) (t : Table) :
    (applyFilter F t).cols = t.cols :=
  condFilter_cols _ _ _

theorem applyFilters_cols : ∀ (fs : List FilterSpec) (t : Table),
    (applyFilters fs t).cols = t.cols := by
  intro fs
  induction fs with
  | nil => intro t; rfl
  | cons F fs ih =>
    intro t
    show (applyFilters fs (applyFilter F t)).cols = t.cols
    rw [ih, applyFilter_cols]

theorem addTimeGroup_cols (g : TimeGroup) (t t2 : Table)
    (h : addTimeGroup g t = Except.ok t2) :
    t2.cols = t.cols ++ [("time_group")] := by
  unfold addTimeGroup at h
  by_cases hmem : ("_submission_time") ∈ t.cols
  · rw [if_pos hmem] at h
    cases hrs : addTimeGroupRows g t.rows with
    | ok rs => rw [hrs] at h; cases h; rfl
    | error m => rw [hrs] at h; cases h
  · rw [if_neg hmem] at h
    cases h

theorem dataTab_csv (t : Table) (d : DataTabOut) (h : dataTab t = Except.ok d) :
    d.csv = csvTable t := by
  unfold dataTab at h
  by_cases hmem : ("institution_name") ∈ t.cols
  · rw [if_pos hmem] at h
    cases h
    rfl
  · rw [if_neg hmem] at h
    cases h

theorem render_inv (g : TimeGroup) (t : Table) (o : RenderOut)
    (h : renderAfterGuard g t = Except.ok o) :
    addTimeGroup g t = Except.ok o.presented ∧ o.dataOut.csv = csvTable o.presented := by
  unfold renderAfterGuard at h
  cases htg : addTimeGroup g t with
  | error m => rw [htg] at h; cases h
  | ok tg =>
    rw [htg] at h
    dsimp only at h
    cases hk : kpisTab tg with
    | error m => rw [hk] at h; cases h
    | ok k =>
      rw [hk] at h
      dsimp only at h
      cases hd : dataTab tg with
      | error m => rw [hd] at h; cases h
      | ok d =>
        rw [hd] at h
        dsimp only at h
        cases hc : chartsTab (chartsStage tg) with
        | error m => rw [hc] at h; cases h
        | ok ch =>
          rw [hc] at h
          dsimp only at h
          cases h
          exact ⟨rfl, dataTab_csv tg d hd⟩

theorem runPipeline_rendered (raw nt : Table) (o : RenderOut) (fs : List FilterSpec)
    (g : TimeGroup) (hn : normalize raw = Except.ok nt)
    (hr : runPipeline (Except.ok raw) fs g = PipelineResult.rendered o) :
    renderAfterGuard g (applyFilters fs nt) = Except.ok o := by
  unfold runPipeline at hr
  dsimp only at hr
  rw [hn] at hr
  dsimp only at hr
  by_cases he : (applyFilters fs nt).rows.isEmpty
  · simp only [he, if_pos] at hr
    cases hr
  · simp only [he, Bool.false_eq_true, if_false] at hr
    cases hg : renderAfterGuard g (applyFilters fs nt) with
    | error m => rw [hg] at hr; cases hr
    | ok o2 =>
      rw [hg] at hr
      dsimp only at hr
      cases hr
      rfl

/-! ## The presented table and its CSV export (claim C6) -/

theorem claim_C6_counterexample :
    ("time_group") ∈ (presentedOf (runPipeline (Except.ok rawA) [] TimeGroup.weekly)).cols ∧
    ("time_group") ∉ KCOLS ∧ ("time_group") ∉ rawA.cols := by
  decide

/-- Claim C6 (amended): the table handed to the raw-data view and CSV
export holds the allowed columns that were present in the raw data, in
the fixed allowed order, plus one synthesized column `time_group`
appended at the end (refuting "no column is ever synthesized", see
`claim_C6_counterexample`); the CSV export's header row matches the
presented table's column order. -/
theorem claim_C6 (raw nt : Table) (fs : List FilterSpec) (g : TimeGroup)
    (h1 : normalize raw = Except.ok nt)
    (h2 : isRendered (runPipeline (Except.ok raw) fs g) = true) :
    (presentedOf (runPipeline (Except.ok raw) fs g)).cols =
      KCOLS.filter (fun c => decide (c ∈ raw.cols)) ++ [("time_group")] ∧
    (csvOfResult (runPipeline (Except.ok raw) fs g)).head? =
      some (presentedOf (runPipeline (Except.ok raw) fs g)).cols ∧
    ∀ c ∈ (presentedOf (runPipeline (Except.ok raw) fs g)).cols,
      c = ("time_group") ∨ (c ∈ KCOLS ∧ c ∈ raw.cols) := by
  cases hres : runPipeline (Except.ok raw) fs g with
  | fetchError m => rw [hres] at h2; cases h2
  | uncaughtError m => rw [hres] at h2; cases h2
  | emptyResult => rw [hres] at h2; cases h2
  | rendered o =>
    have hrag := runPipeline_rendered raw nt o fs g h1 hres
    obtain ⟨htg, hcsv⟩ := render_inv g (applyFilters fs nt) o hrag
    have hcols : o.presented.cols =
        KCOLS.filter (fun c => decide (c ∈ raw.cols)) ++ [("time_group")] := by
      rw [addTimeGroup_cols g _ _ htg, applyFilters_cols, normalize_cols raw nt h1]
    refine ⟨by show o.presented.cols = _; rw [hcols], ?_, ?_⟩
    · show o.dataOut.csv.head? = some o.presented.cols
      rw [hcsv, csvTable]
      rfl
    · intro c hc
      rw [show (presentedOf (PipelineResult.rendered o)).cols = o.presented.cols from rfl,
        hcols] at hc
      rcases List.mem_append.mp hc with hc | hc
      · right
        have := List.mem_filter.mp hc
        exact ⟨this.1, of_decide_eq_true this.2⟩
      · left
        simpa using hc

theorem claim_C6_witness :
    isRendered (runPipeline (Except.ok rawA) [] TimeGroup.weekly) = true ∧
    ((presentedOf (runPipeline (Except.ok rawA) [] TimeGroup.weekly)).cols =
      KCOLS.filter (fun c => decide (c ∈ rawA.cols)) ++ [("time_group")] ∧
    (csvOfResult (runPipeline (Except.ok rawA) [] TimeGroup.weekly)).head? =
      some (presentedOf (runPipeline (Except.ok rawA) [] TimeGroup.weekly)).cols ∧
    ∀ c ∈ (presentedOf (runPipeline (Except.ok rawA) [] TimeGroup.weekly)).cols,
      c = ("time_group") ∨ (c ∈ KCOLS ∧ c ∈ rawA.cols)) :=
  ⟨by decide, claim_C6 rawA rawAN [] TimeGroup.weekly (by rfl) (by decide)⟩

/-! ## Guarded rendering (claim C10, amended part) -/

theorem addTimeGroupRows_ok (g : TimeGroup) :
    ∀ rs : List Row, (∀ r ∈ rs, isOkE (bucketCell g (getCell r ("_submission_time"))) = true) →
      ∃ rs2, addTimeGroupRows g rs = Except.ok rs2 := by
  intro rs
  induction rs with
  | nil => intro _; exact ⟨[], rfl⟩
  | cons r rs ih =>
    intro h
    obtain ⟨v, hv⟩ := (isOkE_iff _).mp (h r (List.mem_cons_self r rs))
    obtain ⟨rs2, hrs⟩ := ih (fun r hr => h r (List.mem_cons_of_mem _ hr))
    exact ⟨(r ++ [(("time_group"), v)]) :: rs2, by simp only [addTimeGroupRows, hv, hrs]⟩

theorem kpisTab_ok (t : Table) (h1 : ("institution_name") ∈ t.cols)
    (h2 : ("field_of_study") ∈ t.cols) (h3 : ("district_of_residence") ∈ t.cols) :
    ∃ k, kpisTab t = Except.ok k := by
  simp only [kpisTab, if_pos h1, if_pos h2, if_pos h3]
  exact ⟨_, rfl⟩

theorem dataTab_ok (t : Table) (h1 : ("institution_name") ∈ t.cols) :
    ∃ d, dataTab t = Except.ok d := by
  simp only [dataTab, if_pos h1]
  exact ⟨_, rfl⟩

theorem chartsTab_ok (t : Table) (h1 : ("time_group") ∈ t.cols)
    (h2 : ("field_of_study") ∈ t.cols) :
    ∃ ch, chartsTab t = Except.ok ch := by
  simp only [chartsTab, if_pos h1, if_pos h2]
  exact ⟨_, rfl⟩

theorem chartsStage_cols (t : Table) : (chartsStage t).cols = t.cols := by
  unfold chartsStage
  split
  · rw [mapCol_cols]
  · rfl

/-- Claim C10 (amended): the render path never raises on tables that
carry `_submission_time`, `institution_name`, `field_of_study` and
`district_of_residence` (with parsed timestamps); reads of the remaining
columns are presence-guarded.  The unamended claim — presence checked
before *every* column read — is refuted by `claim_C10_counterexample`:
the top-3 rankings (app.py lines 181-183), the `time_group` derivation
(line 152), the institution pie (line 215) and the field chart (line
240) read their columns unguarded and raise `KeyError` when absent. -/
theorem claim_C10 (g : TimeGroup) (t : Table)
    (h1 : ("_submission_time") ∈ t.cols)
    (h2 : ("institution_name") ∈ t.cols)
    (h3 : ("field_of_study") ∈ t.cols)
    (h4 : ("district_of_residence") ∈ t.cols)
    (h5 : ∀ r ∈ t.rows, isOkE (bucketCell g (getCell r ("_submission_time"))) = true) :
    ∃ o, renderAfterGuard g t = Except.ok o := by
  obtain ⟨rs2, hrs⟩ := addTimeGroupRows_ok g t.rows h5
  have htg : addTimeGroup g t =
      Except.ok { cols := t.cols ++ [("time_group")], rows := rs2 } := by
    unfold addTimeGroup
    rw [if_pos h1, hrs]
  obtain ⟨k, hk⟩ := kpisTab_ok { cols := t.cols ++ [("time_group")], rows := rs2 }
    (List.mem_append_left _ h2) (List.mem_append_left _ h3) (List.mem_append_left _ h4)
  obtain ⟨d, hd⟩ := dataTab_ok { cols := t.cols ++ [("time_group")], rows := rs2 }
    (List.mem_append_left _ h2)
  obtain ⟨ch, hch⟩ := chartsTab_ok
    (chartsStage { cols := t.cols ++ [("time_group")], rows := rs2 })
    (by rw [chartsStage_cols]; exact List.mem_append_right _ (by simp))
    (by rw [chartsStage_cols]; exact List.mem_append_left _ h3)
  have hfin : renderAfterGuard g t = Except.ok
      { kpis := k, presented := { cols := t.cols ++ [("time_group")], rows := rs2 },
        dataOut := d, charts := ch } := by
    unfold renderAfterGuard
    rw [htg]
    dsimp only
    rw [hk]
    dsimp only
    rw [hd]
    dsimp only
    rw [hch]
  exact ⟨_, hfin⟩

theorem claim_C10_witness :
    ((("_submission_time") ∈ tFour.cols) ∧
     (("institution_name") ∈ tFour.cols) ∧
     (("field_of_study") ∈ tFour.cols) ∧
     (("district_of_residence") ∈ tFour.cols) ∧
     (∀ r ∈ tFour.rows,
        isOkE (bucketCell TimeGroup.weekly (getCell r ("_submission_time"))) = true)) ∧
    ∃ o, renderAfterGuard TimeGroup.weekly tFour = Except.ok o :=
  ⟨⟨by decide, by decide, by decide, by decide, by decide⟩,
    claim_C10 TimeGroup.weekly tFour (by decide) (by decide) (by decide) (by decide) (by decide)⟩

/-! ## Top-N ranking by frequency (claim C7) -/

theorem mem_dedupFirstGo {α : Type} [DecidableEq α] :
    ∀ (l seen : List α) (x : α), x ∈ dedupFirstGo seen l ↔ (x ∈ l ∧ x ∉ seen) := by
  intro l
  induction l with
  | nil => intro seen x; simp [dedupFirstGo]
  | cons a as ih =>
    intro seen x
    by_cases ha : a ∈ seen
    · rw [dedupFirstGo, if_pos ha, ih]
      constructor
      · rintro ⟨hx, hs⟩
        exact ⟨List.mem_cons_of_mem _ hx, hs⟩
      · rintro ⟨hx, hs⟩
        rcases List.mem_cons.mp hx with rfl | hx
        · exact absurd ha hs
        · exact ⟨hx, hs⟩
    · rw [dedupFirstGo, if_neg ha]
      constructor
      · intro hx
        rcases List.mem_cons.mp hx with rfl | hx
        · exact ⟨List.mem_cons_self _ _, ha⟩
        · obtain ⟨h1, h2⟩ := (ih _ _).mp hx
          refine ⟨List.mem_cons_of_mem _ h1, fun hs => h2 (List.mem_cons_of_mem _ hs)⟩
      · rintro ⟨hx, hs⟩
        rcases List.mem_cons.mp hx with rfl | hx
        · exact List.mem_cons_self _ _
        · by_cases hxa : x = a
          · subst hxa
            exact List.mem_cons_self _ _
          · refine List.mem_cons_of_mem _ ((ih _ _).mpr ⟨hx, ?_⟩)
            intro hmem
            rcases List.mem_cons.mp hmem with h | h
            · exact hxa h
            · exact hs h

theorem mem_dedupFirst {α : Type} [DecidableEq α] (l : List α) (x : α) :
    x ∈ dedupFirst l ↔ x ∈ l := by
  rw [dedupFirst, mem_dedupFirstGo]
  simp

theorem nodup_dedupFirstGo {α : Type} [DecidableEq α] :
    ∀ (l seen : List α), (dedupFirstGo seen l).Nodup := by
  intro l
  induction l with
  | nil => intro seen; simp [dedupFirstGo]
  | cons a as ih =>
    intro seen
    by_cases ha : a ∈ seen
    · rw [dedupFirstGo, if_pos ha]
      exact ih seen
    · rw [dedupFirstGo, if_neg ha]
      refine List.Nodup.cons ?_ (ih _)
      intro hmem
      exact ((mem_dedupFirstGo as (a :: seen) a).mp hmem).2 (List.mem_cons_self _ _)

theorem nodup_dedupFirst {α : Type} [DecidableEq α] (l : List α) : (dedupFirst l).Nodup :=
  nodup_dedupFirstGo l []

theorem before_dedupFirstGo {α : Type} [DecidableEq α] :
    ∀ (l seen : List α) (X Y : α), X ≠ Y → X ∉ seen → Y ∉ seen → X ∈ l →
      firstIdx l X < firstIdx l Y →
      firstIdx (dedupFirstGo seen l) X < firstIdx (dedupFirstGo seen l) Y := by
  intro l
  induction l with
  | nil =>
    intro seen X Y _ _ _ hX _
    cases hX
  | cons a as ih =>
    intro seen X Y hXY hXs hYs hXl hlt
    by_cases haX : a = X
    · subst haX
      rw [dedupFirstGo, if_neg hXs]
      simp only [firstIdx, if_pos rfl, if_true, if_neg hXY]
      omega
    · by_cases haY : a = Y
      · exfalso
        subst haY
        simp only [firstIdx, if_neg haX, if_pos rfl, if_true] at hlt
        omega
      · have hX2 : X ∈ as := by
          rcases List.mem_cons.mp hXl with rfl | h
          · exact absurd rfl haX
          · exact h
        have hlt2 : firstIdx as X < firstIdx as Y := by
          simp only [firstIdx, if_neg haX, if_neg haY] at hlt
          omega
        by_cases ha : a ∈ seen
        · rw [dedupFirstGo, if_pos ha]
          exact ih seen X Y hXY hXs hYs hX2 hlt2
        · rw [dedupFirstGo, if_neg ha]
          have hXs2 : X ∉ a :: seen := by
            intro hmem
            rcases List.mem_cons.mp hmem with h | h
            · exact haX h.symm
            · exact hXs h
          have hYs2 : Y ∉ a :: seen := by
            intro hmem
            rcases List.mem_cons.mp hmem with h | h
            · exact haY h.symm
            · exact hYs h
          have h2 := ih (a :: seen) X Y hXY hXs2 hYs2 hX2 hlt2
          simp only [firstIdx, if_neg haX, if_neg haY]
          omega

theorem three_perm {α : Type} [DecidableEq α] (l : List α) (X Y Z : α)
    (hnd : l.Nodup) (hsub : ∀ v ∈ l, v = X ∨ v = Y ∨ v = Z)
    (hX : X ∈ l) (hY : Y ∈ l) (hZ : Z ∈ l)
    (hXY : X ≠ Y) (hXZ : X ≠ Z) (hYZ : Y ≠ Z) :
    l = [X, Y, Z] ∨ l = [X, Z, Y] ∨ l = [Y, X, Z] ∨
    l = [Y, Z, X] ∨ l = [Z, X, Y] ∨ l = [Z, Y, X] := by
  rcases l with _ | ⟨a, _ | ⟨b, _ | ⟨c, rest⟩⟩⟩
  · cases hX
  · simp only [List.mem_singleton] at hX hY
    exact absurd (hX.trans hY.symm) hXY
  · simp only [List.mem_cons, List.not_mem_nil, or_false] at hX hY hZ
    rcases hX with rfl | rfl <;> rcases hY with rfl | rfl <;> rcases hZ with rfl | rfl <;>
      simp_all
  · have hrest : rest = [] := by
      cases hrest : rest with
      | nil => rfl
      | cons d rest2 =>
        exfalso
        subst hrest
        have ha3 := hsub a (by simp)
        have hb3 := hsub b (by simp)
        have hc3 := hsub c (by simp)
        have hd3 := hsub d (by simp)
        simp only [List.nodup_cons, List.mem_cons] at hnd
        rcases ha3 with rfl | rfl | rfl <;> rcases hb3 with rfl | rfl | rfl <;>
          rcases hc3 with rfl | rfl | rfl <;> rcases hd3 with rfl | rfl | rfl <;>
          simp_all
    subst hrest
    have ha3 := hsub a (by simp)
    have hb3 := hsub b (by simp)
    have hc3 := hsub c (by simp)
    simp only [List.nodup_cons, List.mem_cons] at hnd
    rcases ha3 with rfl | rfl | rfl <;> rcases hb3 with rfl | rfl | rfl <;>
      rcases hc3 with rfl | rfl | rfl <;> simp_all

/-- Claim C7: top-N ranking by frequency sorts groups descending by
count and breaks ties by first group encountered in table order — for
every table whose institution column has value counts `{X:5, Y:5, Z:3}`
with `X` appearing before `Y` in row order, top-2 by frequency is
`[X, Y]`, not `[Y, X]`. -/
theorem claim_C7 (t : Table) (X Y Z : Cell)
    (hXY : X ≠ Y) (hXZ : X ≠ Z) (hYZ : Y ≠ Z)
    (hXm : X ≠ Cell.missing) (hYm : Y ≠ Cell.missing) (hZm : Z ≠ Cell.missing)
    (hsub : ∀ v ∈ t.rows.map (fun r => getCell r ("institution_name")),
      v = X ∨ v = Y ∨ v = Z)
    (hcX : (t.rows.map (fun r => getCell r ("institution_name"))).count X = 5)
    (hcY : (t.rows.map (fun r => getCell r ("institution_name"))).count Y = 5)
    (hcZ : (t.rows.map (fun r => getCell r ("institution_name"))).count Z = 3)
    (horder : firstIdx (t.rows.map (fun r => getCell r ("institution_name"))) X <
      firstIdx (t.rows.map (fun r => getCell r ("institution_name"))) Y) :
    topN 2 (colValues t ("institution_name")) = [X, Y] := by
  have hfilter : colValues t ("institution_name") =
      t.rows.map (fun r => getCell r ("institution_name")) := by
    unfold colValues
    apply List.filter_eq_self.mpr
    intro a ha
    rcases hsub a ha with rfl | rfl | rfl <;> simp [hXm, hYm, hZm]
  set vals := t.rows.map (fun r => getCell r ("institution_name")) with hv
  have hXv : X ∈ vals := List.count_pos_iff.mp (by omega)
  have hYv : Y ∈ vals := List.count_pos_iff.mp (by omega)
  have hZv : Z ∈ vals := List.count_pos_iff.mp (by omega)
  have hdd := three_perm (dedupFirst vals) X Y Z (nodup_dedupFirst vals)
    (fun v hv2 => hsub v ((mem_dedupFirst vals v).mp hv2))
    ((mem_dedupFirst vals X).mpr hXv) ((mem_dedupFirst vals Y).mpr hYv)
    ((mem_dedupFirst vals Z).mpr hZv) hXY hXZ hYZ
  have hbefore := before_dedupFirstGo vals [] X Y hXY (List.not_mem_nil X)
    (List.not_mem_nil Y) hXv horder
  rw [show dedupFirstGo ([] : List Cell) vals = dedupFirst vals from rfl] at hbefore
  rw [hfilter]
  unfold topN valueCountsList
  rcases hdd with h | h | h | h | h | h
  · rw [h]
    simp only [List.map_cons, List.map_nil, hcX, hcY, hcZ]
    simp [sortCountsDesc, insertDesc]
  · rw [h]
    simp only [List.map_cons, List.map_nil, hcX, hcY, hcZ]
    simp [sortCountsDesc, insertDesc]
  · exfalso
    rw [h] at hbefore
    simp only [firstIdx, if_neg (Ne.symm hXY), if_pos rfl, if_true] at hbefore
    omega
  · exfalso
    rw [h] at hbefore
    simp only [firstIdx, if_neg (Ne.symm hXY), if_neg (Ne.symm hXZ), if_pos rfl, if_true] at hbefore
    omega
  · rw [h]
    simp only [List.map_cons, List.map_nil, hcX, hcY, hcZ]
    simp [sortCountsDesc, insertDesc]
  · exfalso
    rw [h] at hbefore
    simp only [firstIdx, if_neg (Ne.symm hXZ), if_neg (Ne.symm hYZ),
      if_neg (Ne.symm hXY), if_pos rfl, if_true] at hbefore
    omega

theorem claim_C7_witness :
    ((Cell.str ("A") ≠ Cell.str ("B")) ∧
     (tTie.rows.map (fun r => getCell r ("institution_name"))).count (Cell.str ("A")) = 5 ∧
     (tTie.rows.map (fun r => getCell r ("institution_name"))).count (Cell.str ("B")) = 5 ∧
     (tTie.rows.map (fun r => getCell r ("institution_name"))).count (Cell.str ("C")) = 3 ∧
     firstIdx (tTie.rows.map (fun r => getCell r ("institution_name"))) (Cell.str ("A")) <
       firstIdx (tTie.rows.map (fun r => getCell r ("institution_name"))) (Cell.str ("B"))) ∧
    topN 2 (colValues tTie ("institution_name")) = [Cell.str ("A"), Cell.str ("B")] :=
  ⟨⟨by decide, by decide, by decide, by decide, by decide⟩,
    claim_C7 tTie (Cell.str ("A")) (Cell.str ("B")) (Cell.str ("C"))
      (by decide) (by decide) (by decide) (by decide) (by decide) (by decide)
      (by decide) (by decide) (by decide) (by decide) (by decide)⟩

/-! ## Character-level facts about strip and title-case -/

theorem toNat_ofNat_small (n : Nat) (h : n < 55296) : (Char.ofNat n).toNat = n := by
  have hv : n.isValidChar := Or.inl h
  rw [Char.ofNat, dif_pos hv]
  rfl

theorem toUpper_eq (c : Char) :
    c.toUpper = if 97 ≤ c.toNat ∧ c.toNat ≤ 122 then Char.ofNat (c.toNat - 32) else c := rfl

theorem toLower_eq (c : Char) :
    c.toLower = if 65 ≤ c.toNat ∧ c.toNat ≤ 90 then Char.ofNat (c.toNat + 32) else c := rfl

theorem upper_upper (c : Char) : c.toUpper.toUpper = c.toUpper := by
  rw [toUpper_eq c]
  by_cases h : 97 ≤ c.toNat ∧ c.toNat ≤ 122
  · rw [if_pos h, toUpper_eq, toNat_ofNat_small (c.toNat - 32) (by omega), if_neg (by omega)]
  · rw [if_neg h, toUpper_eq, if_neg h]

theorem lower_lower (c : Char) : c.toLower.toLower = c.toLower := by
  rw [toLower_eq c]
  by_cases h : 65 ≤ c.toNat ∧ c.toNat ≤ 90
  · rw [if_pos h, toLower_eq, toNat_ofNat_small (c.toNat + 32) (by omega), if_neg (by omega)]
  · rw [if_neg h, toLower_eq, if_neg h]

theorem isAlpha_iff (c : Char) :
    c.isAlpha = true ↔ (65 ≤ c.toNat ∧ c.toNat ≤ 90) ∨ (97 ≤ c.toNat ∧ c.toNat ≤ 122) := by
  simp only [Char.isAlpha, Char.isUpper, Char.isLower, Bool.or_eq_true, Bool.and_eq_true,
    decide_eq_true_eq]
  constructor
  · rintro (⟨h1, h2⟩ | ⟨h1, h2⟩)
    · exact Or.inl ⟨h1, h2⟩
    · exact Or.inr ⟨h1, h2⟩
  · rintro (⟨h1, h2⟩ | ⟨h1, h2⟩)
    · exact Or.inl ⟨h1, h2⟩
    · exact Or.inr ⟨h1, h2⟩

theorem char_toNat_inj {c d : Char} : c = d ↔ c.toNat = d.toNat :=
  ⟨fun h => h ▸ rfl, fun h => Char.eq_of_val_eq (UInt32.ext h)⟩

theorem isWhitespace_iff (c : Char) :
    c.isWhitespace = true ↔
      c.toNat = 32 ∨ c.toNat = 9 ∨ c.toNat = 13 ∨ c.toNat = 10 := by
  simp only [Char.isWhitespace, Bool.or_eq_true, decide_eq_true_eq]
  rw [show (c = ' ') ↔ c.toNat = 32 from char_toNat_inj,
    show (c = '\t') ↔ c.toNat = 9 from char_toNat_inj,
    show (c = '\x0d') ↔ c.toNat = 13 from char_toNat_inj,
    show (c = '\n') ↔ c.toNat = 10 from char_toNat_inj]
  tauto

theorem alpha_not_ws (c : Char) (h : c.isAlpha = true) : c.isWhitespace = false := by
  cases hw : c.isWhitespace with
  | false => rfl
  | true =>
    exfalso
    have h1 := (isAlpha_iff c).mp h
    have h2 := (isWhitespace_iff c).mp hw
    omega

theorem toUpper_alpha (c : Char) (h : c.isAlpha = true) : c.toUpper.isAlpha = true := by
  rw [toUpper_eq]
  by_cases h97 : 97 ≤ c.toNat ∧ c.toNat ≤ 122
  · rw [if_pos h97]
    apply (isAlpha_iff _).mpr
    rw [toNat_ofNat_small _ (by omega)]
    omega
  · rw [if_neg h97]
    exact h

theorem toLower_alpha (c : Char) (h : c.isAlpha = true) : c.toLower.isAlpha = true := by
  rw [toLower_eq]
  by_cases h65 : 65 ≤ c.toNat ∧ c.toNat ≤ 90
  · rw [if_pos h65]
    apply (isAlpha_iff _).mpr
    rw [toNat_ofNat_small _ (by omega)]
    omega
  · rw [if_neg h65]
    exact h

theorem titleL_ws : ∀ (l : List Char) (b : Bool),
    (titleL b l).map Char.isWhitespace = l.map Char.isWhitespace := by
  intro l
  induction l with
  | nil => intro b; rfl
  | cons c cs ih =>
    intro b
    by_cases ha : c.isAlpha = true
    · rw [titleL, if_pos ha]
      simp only [List.map_cons]
      rw [ih true]
      cases b with
      | true =>
        rw [if_pos rfl, alpha_not_ws _ (toLower_alpha c ha), alpha_not_ws c ha]
      | false =>
        rw [if_neg (by simp), alpha_not_ws _ (toUpper_alpha c ha), alpha_not_ws c ha]
    · rw [titleL, if_neg ha]
      simp only [List.map_cons]
      rw [ih false]

theorem titleL_titleL : ∀ (l : List Char) (b : Bool),
    titleL b (titleL b l) = titleL b l := by
  intro l
  induction l with
  | nil => intro b; rfl
  | cons c cs ih =>
    intro b
    by_cases ha : c.isAlpha = true
    · rw [titleL, if_pos ha]
      cases b with
      | true =>
        rw [if_pos rfl, titleL, if_pos (toLower_alpha c ha), if_pos rfl, lower_lower, ih true]
      | false =>
        rw [if_neg (by simp), titleL, if_pos (toUpper_alpha c ha), if_neg (by simp),
          upper_upper, ih true]
    · rw [titleL, if_neg ha, titleL, if_neg ha, ih false]

theorem dropWhile_head_not (p : Char → Bool) :
    ∀ (l : List Char) (a : Char), (l.dropWhile p).head? = some a → p a = false := by
  intro l
  induction l with
  | nil => intro a h; cases h
  | cons c cs ih =>
    intro a h
    rw [List.dropWhile_cons] at h
    by_cases hc : p c = true
    · rw [if_pos hc] at h
      exact ih a h
    · rw [if_neg hc] at h
      simp only [List.head?_cons, Option.some.injEq] at h
      subst h
      exact (Bool.not_eq_true _).mp hc

theorem dropWhile_eq_self_of (p : Char → Bool) (l : List Char)
    (h : ∀ a, l.head? = some a → p a = false) : l.dropWhile p = l := by
  cases l with
  | nil => rfl
  | cons c cs =>
    rw [List.dropWhile_cons, if_neg (by simp [h c rfl])]

theorem stripL_head (l : List Char) (a : Char) :
    (stripL l).head? = some a → a.isWhitespace = false := by
  intro h
  unfold stripL at h
  rw [List.head?_reverse] at h
  rcases hq : ((l.dropWhile Char.isWhitespace).reverse.dropWhile Char.isWhitespace) with
    _ | ⟨b, q⟩
  · rw [hq] at h
    cases h
  · have hsuf : (l.dropWhile Char.isWhitespace).reverse.dropWhile Char.isWhitespace <:+
        (l.dropWhile Char.isWhitespace).reverse := List.dropWhile_suffix _
    rw [hq] at hsuf
    obtain ⟨u, hu⟩ := hsuf
    rw [hq] at h
    have h3 : (l.dropWhile Char.isWhitespace).head? = some a := by
      rw [show (l.dropWhile Char.isWhitespace).head? =
          (l.dropWhile Char.isWhitespace).reverse.getLast? from
        (List.getLast?_reverse _).symm, ← hu, List.getLast?_append, h, Option.or_some]
    exact dropWhile_head_not Char.isWhitespace l a h3

theorem stripL_getLast (l : List Char) (a : Char) :
    (stripL l).getLast? = some a → a.isWhitespace = false := by
  intro h
  unfold stripL at h
  rw [List.getLast?_reverse] at h
  exact dropWhile_head_not Char.isWhitespace _ a h

theorem stripL_eq_self (l : List Char)
    (h1 : ∀ a, l.head? = some a → a.isWhitespace = false)
    (h2 : ∀ a, l.getLast? = some a → a.isWhitespace = false) : stripL l = l := by
  unfold stripL
  rw [dropWhile_eq_self_of _ l h1,
    dropWhile_eq_self_of _ l.reverse (fun a ha => h2 a (by rwa [List.head?_reverse] at ha)),
    List.reverse_reverse]

theorem stripL_idem (l : List Char) : stripL (stripL l) = stripL l :=
  stripL_eq_self _ (stripL_head l) (stripL_getLast l)

theorem canonStr_idem (s : String) : canonStr (canonStr s) = canonStr s := by
  show String.mk (titleL false (stripL (titleL false (stripL s.data)))) =
    String.mk (titleL false (stripL s.data))
  have hstrip : stripL (titleL false (stripL s.data)) = titleL false (stripL s.data) := by
    apply stripL_eq_self
    · intro a ha
      have hws := titleL_ws (stripL s.data) false
      have h1 : ((titleL false (stripL s.data)).map Char.isWhitespace).head? =
          ((stripL s.data).map Char.isWhitespace).head? := by rw [hws]
      rw [List.head?_map, List.head?_map, ha] at h1
      cases hu : (stripL s.data).head? with
      | none => rw [hu] at h1; cases h1
      | some b =>
        rw [hu] at h1
        simp only [Option.map_some', Option.some.injEq] at h1
        rw [h1]
        exact stripL_head s.data b hu
    · intro a ha
      have hws := titleL_ws (stripL s.data) false
      have h1 : ((titleL false (stripL s.data)).map Char.isWhitespace).getLast? =
          ((stripL s.data).map Char.isWhitespace).getLast? := by rw [hws]
      rw [List.getLast?_map, List.getLast?_map, ha] at h1
      cases hu : (stripL s.data).getLast? with
      | none => rw [hu] at h1; cases h1
      | some b =>
        rw [hu] at h1
        simp only [Option.map_some', Option.some.injEq] at h1
        rw [h1]
        exact stripL_getLast s.data b hu
  rw [hstrip, titleL_titleL]

/-! ## Cell-level normal forms -/

theorem toTimeCell_roundtrip (v v2 : Cell) (h : toTimeCell v = Except.ok v2) :
    toTimeCell v2 = Except.ok v2 := by
  cases v with
  | str s =>
    unfold toTimeCell at h
    dsimp only at h
    cases hp : parseDate s with
    | some τ => rw [hp] at h; cases h; rfl
    | none => rw [hp] at h; cases h
  | num n => cases h; rfl
  | time τ => cases h; rfl
  | missing => cases h; rfl

theorem toNumCell_shape (v : Cell) : ∃ n, toNumCell v = Cell.num n := by
  cases v with
  | str s =>
    unfold toNumCell
    dsimp only
    cases hp : parseNum s with
    | some n => exact ⟨n, rfl⟩
    | none => exact ⟨0, rfl⟩
  | num n => exact ⟨n, rfl⟩
  | time τ => exact ⟨τ, rfl⟩
  | missing => exact ⟨0, rfl⟩

theorem toNumCell_idem (v : Cell) : toNumCell (toNumCell v) = toNumCell v := by
  obtain ⟨n, hn⟩ := toNumCell_shape v
  rw [hn]
  rfl

theorem toTextCell_idem (v : Cell) : toTextCell (toTextCell v) = toTextCell v := by
  cases v <;> simp only [toTextCell] <;> rw [canonStr_idem]

/-! ## Row-level lemmas about the cleaning steps -/

theorem getCell_cons_self (k : String) (v : Cell) (rest : Row) :
    getCell ((k, v) :: rest) k = v := by
  unfold getCell
  rw [List.find?_cons_of_pos _ (by simp)]

theorem getCell_cons_ne (k : String) (v : Cell) (rest : Row) (c : String) (h : k ≠ c) :
    getCell ((k, v) :: rest) c = getCell rest c := by
  unfold getCell
  rw [List.find?_cons_of_neg _ (by simp [h])]

theorem build_getCell : ∀ (r : Row) (cs : List String),
    r.map Prod.fst = cs → cs.Nodup → cs.map (fun c => (c, getCell r c)) = r := by
  intro r
  induction r with
  | nil =>
    intro cs hk _
    rw [← hk]
    rfl
  | cons q rest ih =>
    intro cs hk hnd
    rw [← hk]
    simp only [List.map_cons]
    rw [← hk] at hnd
    simp only [List.map_cons, List.nodup_cons] at hnd
    rw [show q = (q.1, q.2) from rfl, getCell_cons_self]
    have htail : (rest.map Prod.fst).map (fun c => (c, getCell ((q.1, q.2) :: rest) c)) =
        (rest.map Prod.fst).map (fun c => (c, getCell rest c)) := by
      apply List.map_congr_left
      intro c hc
      rw [getCell_cons_ne _ _ _ _
        (fun h => hnd.1 (show q.1 ∈ rest.map Prod.fst by rw [h]; exact hc))]
    rw [show ((q.1, q.2) : String × Cell) = q from rfl] at htail ⊢
    rw [htail, ih (rest.map Prod.fst) rfl hnd.2]

theorem mapRow_keys (c : String) (f : Cell → Cell) (r : Row) :
    (mapRow c f r).map Prod.fst = r.map Prod.fst := by
  unfold mapRow
  rw [List.map_map]
  apply List.map_congr_left
  intro p _
  by_cases h : p.1 = c <;> simp [h]

theorem mapRow_id (c : String) (f : Cell → Cell) (r : Row)
    (h : ∀ p ∈ r, p.1 = c → f p.2 = p.2) : mapRow c f r = r := by
  unfold mapRow
  conv_rhs => rw [← List.map_id r]
  apply List.map_congr_left
  intro p hp
  by_cases hp1 : p.1 = c
  · rw [if_pos hp1, h p hp hp1]
    rfl
  · rw [if_neg hp1]
    rfl

theorem mapRowE_id (c : String) (f : Cell → Except String Cell) :
    ∀ r : Row, (∀ p ∈ r, p.1 = c → f p.2 = Except.ok p.2) →
      mapRowE c f r = Except.ok r := by
  intro r
  induction r with
  | nil => intro _; rfl
  | cons q ps ih =>
    intro h
    have hps := ih (fun p hp => h p (List.mem_cons_of_mem _ hp))
    rw [show q = (q.1, q.2) from rfl, mapRowE]
    by_cases hk : q.1 = c
    · rw [if_pos hk, h q (List.mem_cons_self _ _) hk, hps]
    · rw [if_neg hk, hps]

theorem mapRowsE_id (c : String) (f : Cell → Except String Cell) :
    ∀ rs : List Row, (∀ r ∈ rs, ∀ p ∈ r, p.1 = c → f p.2 = Except.ok p.2) →
      mapRowsE c f rs = Except.ok rs := by
  intro rs
  induction rs with
  | nil => intro _; rfl
  | cons r rs ih =>
    intro h
    rw [mapRowsE, mapRowE_id c f r (h r (List.mem_cons_self _ _)),
      ih (fun r hr => h r (List.mem_cons_of_mem _ hr))]

theorem mapRowE_eq (c : String) (f : Cell → Except String Cell) :
    ∀ (r r2 : Row), mapRowE c f r = Except.ok r2 →
      r2.map Prod.fst = r.map Prod.fst ∧
      ∀ p2 ∈ r2, (p2.1 ≠ c ∧ p2 ∈ r) ∨ (p2.1 = c ∧ ∃ v, f v = Except.ok p2.2) := by
  intro r
  induction r with
  | nil =>
    intro r2 h
    cases h
    exact ⟨rfl, by intro p2 hp2; cases hp2⟩
  | cons q ps ih =>
    intro r2 h
    rw [show q = (q.1, q.2) from rfl, mapRowE] at h
    by_cases hk : q.1 = c
    · rw [if_pos hk] at h
      cases hf : f q.2 with
      | error m =>
        rw [hf] at h
        cases hps : mapRowE c f ps with
        | error m2 => rw [hps] at h; cases h
        | ok ps2 => rw [hps] at h; cases h
      | ok v2 =>
        rw [hf] at h
        cases hps : mapRowE c f ps with
        | error m => rw [hps] at h; cases h
        | ok ps2 =>
          rw [hps] at h
          cases h
          obtain ⟨ihk, ihm⟩ := ih ps2 hps
          constructor
          · simp only [List.map_cons, ihk]
          · intro p2 hp2
            rcases List.mem_cons.mp hp2 with rfl | hp2
            · exact Or.inr ⟨hk, q.2, hf⟩
            · rcases ihm p2 hp2 with ⟨h1, h2⟩ | h1
              · exact Or.inl ⟨h1, List.mem_cons_of_mem _ h2⟩
              · exact Or.inr h1
    · rw [if_neg hk] at h
      cases hps : mapRowE c f ps with
      | error m => rw [hps] at h; cases h
      | ok ps2 =>
        rw [hps] at h
        cases h
        obtain ⟨ihk, ihm⟩ := ih ps2 hps
        constructor
        · simp only [List.map_cons, ihk]
        · intro p2 hp2
          rcases List.mem_cons.mp hp2 with rfl | hp2
          · exact Or.inl ⟨hk, List.mem_cons_self _ _⟩
          · rcases ihm p2 hp2 with ⟨h1, h2⟩ | h1
            · exact Or.inl ⟨h1, List.mem_cons_of_mem _ h2⟩
            · exact Or.inr h1

theorem mapRowsE_mem (c : String) (f : Cell → Except String Cell) :
    ∀ (rs rs2 : List Row), mapRowsE c f rs = Except.ok rs2 →
      ∀ r2 ∈ rs2, ∃ r ∈ rs, mapRowE c f r = Except.ok r2 := by
  intro rs
  induction rs with
  | nil =>
    intro rs2 h
    cases h
    intro r2 hr2
    cases hr2
  | cons r rs ih =>
    intro rs2 h
    rw [mapRowsE] at h
    cases hr : mapRowE c f r with
    | error m =>
      rw [hr] at h
      cases hrs : mapRowsE c f rs with
      | error m2 => rw [hrs] at h; cases h
      | ok rss => rw [hrs] at h; cases h
    | ok rr =>
      rw [hr] at h
      cases hrs : mapRowsE c f rs with
      | error m => rw [hrs] at h; cases h
      | ok rss =>
        rw [hrs] at h
        cases h
        intro r2 hr2
        rcases List.mem_cons.mp hr2 with rfl | hr2
        · exact ⟨r, List.mem_cons_self _ _, hr⟩
        · obtain ⟨r0, hr0, hr0e⟩ := ih rss hrs r2 hr2
          exact ⟨r0, List.mem_cons_of_mem _ hr0, hr0e⟩

/-! ## Table-level invariants of the Normalizer -/

theorem cellsAt_mapRow_ne (c c2 : String) (f : Cell → Cell) (P : Cell → Prop) (r : Row)
    (hne : c ≠ c2) (h : cellsAt c P r) : cellsAt c P (mapRow c2 f r) := by
  intro p hp hp1
  obtain ⟨q, hq, heq⟩ := List.mem_map.mp hp
  by_cases hq1 : q.1 = c2
  · rw [if_pos hq1] at heq
    exfalso
    apply hne
    rw [← hp1, ← heq]
    exact hq1
  · rw [if_neg hq1] at heq
    subst heq
    exact h q hq hp1

theorem cellsAt_mapRow_self (c : String) (f : Cell → Cell) (P : Cell → Prop) (r : Row)
    (hf : ∀ v, P (f v)) : cellsAt c P (mapRow c f r) := by
  intro p hp hp1
  obtain ⟨q, hq, heq⟩ := List.mem_map.mp hp
  by_cases hq1 : q.1 = c
  · rw [if_pos hq1] at heq
    rw [← heq]
    exact hf q.2
  · rw [if_neg hq1] at heq
    subst heq
    exact absurd hp1 hq1

theorem colOK_mapCol_ne (c c2 : String) (f : Cell → Cell) (P : Cell → Prop) (t : Table)
    (hne : c ≠ c2) (h : colOK c P t) : colOK c P (mapCol c2 f t) := by
  unfold mapCol
  split
  · intro r hr
    obtain ⟨r0, hr0, rfl⟩ := List.mem_map.mp hr
    exact cellsAt_mapRow_ne c c2 f P r0 hne (h r0 hr0)
  · exact h

theorem colOK_mapCol_self (c : String) (f : Cell → Cell) (P : Cell → Prop) (t : Table)
    (hf : ∀ v, P (f v)) (hkeys : ∀ r ∈ t.rows, r.map Prod.fst = t.cols) :
    colOK c P (mapCol c f t) := by
  unfold mapCol
  by_cases hmem : c ∈ t.cols
  · rw [if_pos hmem]
    intro r hr
    obtain ⟨r0, hr0, rfl⟩ := List.mem_map.mp hr
    exact cellsAt_mapRow_self c f P r0 hf
  · rw [if_neg hmem]
    intro r hr p hp hp1
    exfalso
    apply hmem
    rw [← hkeys r hr]
    exact List.mem_map.mpr ⟨p, hp, hp1⟩

theorem keys_mapCol (c : String) (f : Cell → Cell) (t : Table)
    (h : ∀ r ∈ t.rows, r.map Prod.fst = t.cols) :
    ∀ r ∈ (mapCol c f t).rows, r.map Prod.fst = (mapCol c f t).cols := by
  unfold mapCol
  split
  · intro r hr
    obtain ⟨r0, hr0, rfl⟩ := List.mem_map.mp hr
    rw [mapRow_keys]
    exact h r0 hr0
  · exact h

theorem keys_mapColE (c : String) (f : Cell → Except String Cell) (t t2 : Table)
    (hok : mapColE c f t = Except.ok t2)
    (h : ∀ r ∈ t.rows, r.map Prod.fst = t.cols) :
    ∀ r2 ∈ t2.rows, r2.map Prod.fst = t2.cols := by
  unfold mapColE at hok
  by_cases hmem : c ∈ t.cols
  · rw [if_pos hmem] at hok
    cases hrs : mapRowsE c f t.rows with
    | error m => rw [hrs] at hok; cases hok
    | ok rs =>
      rw [hrs] at hok
      cases hok
      intro r2 hr2
      obtain ⟨r, hr, hre⟩ := mapRowsE_mem c f t.rows rs hrs r2 hr2
      rw [(mapRowE_eq c f r r2 hre).1]
      exact h r hr
  · rw [if_neg hmem] at hok
    cases hok
    exact h

theorem colOK_mapColE_self (c : String) (f : Cell → Except String Cell) (P : Cell → Prop)
    (t t2 : Table) (hok : mapColE c f t = Except.ok t2)
    (hf : ∀ v v2, f v = Except.ok v2 → P v2)
    (hkeys : ∀ r ∈ t.rows, r.map Prod.fst = t.cols) : colOK c P t2 := by
  unfold mapColE at hok
  by_cases hmem : c ∈ t.cols
  · rw [if_pos hmem] at hok
    cases hrs : mapRowsE c f t.rows with
    | error m => rw [hrs] at hok; cases hok
    | ok rs =>
      rw [hrs] at hok
      cases hok
      intro r2 hr2 p hp hp1
      obtain ⟨r, hr, hre⟩ := mapRowsE_mem c f t.rows rs hrs r2 hr2
      rcases (mapRowE_eq c f r r2 hre).2 p hp with ⟨h1, _⟩ | ⟨_, v, hv⟩
      · exact absurd hp1 h1
      · exact hf v p.2 hv
  · rw [if_neg hmem] at hok
    cases hok
    intro r hr p hp hp1
    exfalso
    apply hmem
    rw [← hkeys r hr]
    exact List.mem_map.mpr ⟨p, hp, hp1⟩

theorem colOK_mapColE_ne (c c2 : String) (f : Cell → Except String Cell) (P : Cell → Prop)
    (t t2 : Table) (hok : mapColE c2 f t = Except.ok t2)
    (hne : c ≠ c2) (h : colOK c P t) : colOK c P t2 := by
  unfold mapColE at hok
  by_cases hmem : c2 ∈ t.cols
  · rw [if_pos hmem] at hok
    cases hrs : mapRowsE c2 f t.rows with
    | error m => rw [hrs] at hok; cases hok
    | ok rs =>
      rw [hrs] at hok
      cases hok
      intro r2 hr2 p hp hp1
      obtain ⟨r, hr, hre⟩ := mapRowsE_mem c2 f t.rows rs hrs r2 hr2
      rcases (mapRowE_eq c2 f r r2 hre).2 p hp with ⟨_, h2⟩ | ⟨h1, _⟩
      · exact h r hr p h2 hp1
      · exact absurd (hp1.symm.trans h1) hne
  · rw [if_neg hmem] at hok
    cases hok
    exact h

theorem filter_mem_of_sublist : ∀ {l s : List String}, s.Sublist l → l.Nodup →
    l.filter (fun c => decide (c ∈ s)) = s := by
  intro l s h
  induction h with
  | slnil => intro _; rfl
  | @cons s2 l2 a h ih =>
    intro hnd
    simp only [List.nodup_cons] at hnd
    have ha : a ∉ s2 := fun hmem => hnd.1 (h.subset hmem)
    rw [List.filter_cons, if_neg (by simpa using ha)]
    exact ih hnd.2
  | @cons₂ s2 l2 a h ih =>
    intro hnd
    simp only [List.nodup_cons] at hnd
    rw [List.filter_cons, if_pos (by simp)]
    have hcong : ∀ x ∈ l2,
        (fun c => decide (c ∈ a :: s2)) x = (fun c => decide (c ∈ s2)) x := by
      intro x hx
      have hxa : x ≠ a := fun hxe => hnd.1 (hxe ▸ hx)
      simp [List.mem_cons, hxa]
    rw [List.filter_congr hcong, ih hnd.2]

theorem selectCols_keys (t : Table) :
    ∀ r2 ∈ (selectCols t).rows, r2.map Prod.fst = (selectCols t).cols := by
  intro r2 hr2
  obtain ⟨r, _, rfl⟩ := List.mem_map.mp hr2
  rw [show (selectCols t).cols = KCOLS.filter (fun c => decide (c ∈ t.cols)) from rfl,
    List.map_map]
  exact (List.map_congr_left (fun c _ => rfl)).trans (List.map_id _)

/-- The Normalizer's output is canonical: allowed columns only, rows
keyed by the column list, and every cell a fixed point of its column's
cleaning rule. -/
theorem normalize_canonical (t t2 : Table) (h : normalize t = Except.ok t2) :
    Canonical t2 := by
  unfold normalize at h
  cases hts : mapColE ("_submission_time") toTimeCell (selectCols t) with
  | error m => rw [hts] at h; cases h
  | ok tA =>
    rw [hts] at h
    dsimp only at h
    cases h
    show Canonical
      (mapCol ("district_of_residence") toTextCell
        (mapCol ("education_level") toTextCell
          (mapCol ("field_of_study") toTextCell
            (mapCol ("institution_name") toTextCell
              (mapCol ("internship_exposure_count") toNumCell tA)))))
    have keys0 := selectCols_keys t
    have keysA := keys_mapColE _ toTimeCell _ tA hts keys0
    have keysB := keys_mapCol ("internship_exposure_count") toNumCell tA keysA
    have keysI := keys_mapCol ("institution_name") toTextCell _ keysB
    have keysF := keys_mapCol ("field_of_study") toTextCell _ keysI
    have keysE := keys_mapCol ("education_level") toTextCell _ keysF
    have keysD := keys_mapCol ("district_of_residence") toTextCell _ keysE
    have tsA : colOK ("_submission_time") (fun v => toTimeCell v = Except.ok v) tA :=
      colOK_mapColE_self _ toTimeCell _ _ tA hts
        (fun v v2 hv => toTimeCell_roundtrip v v2 hv) keys0
    have tsD := colOK_mapCol_ne _ ("district_of_residence") toTextCell _ _ (by decide)
      (colOK_mapCol_ne _ ("education_level") toTextCell _ _ (by decide)
        (colOK_mapCol_ne _ ("field_of_study") toTextCell _ _ (by decide)
          (colOK_mapCol_ne _ ("institution_name") toTextCell _ _ (by decide)
            (colOK_mapCol_ne _ ("internship_exposure_count") toNumCell _ _ (by decide) tsA))))
    have numB : colOK ("internship_exposure_count") (fun v => toNumCell v = v)
        (mapCol ("internship_exposure_count") toNumCell tA) :=
      colOK_mapCol_self _ toNumCell _ tA (fun v => toNumCell_idem v) keysA
    have numD := colOK_mapCol_ne _ ("district_of_residence") toTextCell _ _ (by decide)
      (colOK_mapCol_ne _ ("education_level") toTextCell _ _ (by decide)
        (colOK_mapCol_ne _ ("field_of_study") toTextCell _ _ (by decide)
          (colOK_mapCol_ne _ ("institution_name") toTextCell _ _ (by decide) numB)))
    have instI : colOK ("institution_name") (fun v => toTextCell v = v)
        (mapCol ("institution_name") toTextCell
          (mapCol ("internship_exposure_count") toNumCell tA)) :=
      colOK_mapCol_self _ toTextCell _ _ (fun v => toTextCell_idem v) keysB
    have instD := colOK_mapCol_ne _ ("district_of_residence") toTextCell _ _ (by decide)
      (colOK_mapCol_ne _ ("education_level") toTextCell _ _ (by decide)
        (colOK_mapCol_ne _ ("field_of_study") toTextCell _ _ (by decide) instI))
    have fieldF : colOK ("field_of_study") (fun v => toTextCell v = v)
        (mapCol ("field_of_study") toTextCell
          (mapCol ("institution_name") toTextCell
            (mapCol ("internship_exposure_count") toNumCell tA))) :=
      colOK_mapCol_self _ toTextCell _ _ (fun v => toTextCell_idem v) keysI
    have fieldD := colOK_mapCol_ne _ ("district_of_residence") toTextCell _ _ (by decide)
      (colOK_mapCol_ne _ ("education_level") toTextCell _ _ (by decide) fieldF)
    have eduE : colOK ("education_level") (fun v => toTextCell v = v)
        (mapCol ("education_level") toTextCell
          (mapCol ("field_of_study") toTextCell
            (mapCol ("institution_name") toTextCell
              (mapCol ("internship_exposure_count") toNumCell tA)))) :=
      colOK_mapCol_self _ toTextCell _ _ (fun v => toTextCell_idem v) keysF
    have eduD := colOK_mapCol_ne _ ("district_of_residence") toTextCell _ _ (by decide) eduE
    have distD : colOK ("district_of_residence") (fun v => toTextCell v = v)
        (mapCol ("district_of_residence") toTextCell
          (mapCol ("education_level") toTextCell
            (mapCol ("field_of_study") toTextCell
              (mapCol ("institution_name") toTextCell
                (mapCol ("internship_exposure_count") toNumCell tA))))) :=
      colOK_mapCol_self _ toTextCell _ _ (fun v => toTextCell_idem v) keysE
    have hcols : (mapCol ("district_of_residence") toTextCell
        (mapCol ("education_level") toTextCell
          (mapCol ("field_of_study") toTextCell
            (mapCol ("institution_name") toTextCell
              (mapCol ("internship_exposure_count") toNumCell tA))))).cols =
        KCOLS.filter (fun c => decide (c ∈ t.cols)) := by
      rw [mapCol_cols, mapCol_cols, mapCol_cols, mapCol_cols, mapCol_cols,
        mapColE_cols _ _ _ _ hts, selectCols_cols]
    refine ⟨?_, ?_⟩
    · rw [hcols]
      exact List.filter_sublist KCOLS
    · intro r hr
      refine ⟨keysD r hr, ?_⟩
      intro p hp
      refine ⟨fun h1 => tsD r hr p hp h1, fun h2 => numD r hr p hp h2, fun h3 => ?_⟩
      rcases show p.1 = ("institution_name") ∨ p.1 = ("field_of_study") ∨
          p.1 = ("education_level") ∨ p.1 = ("district_of_residence") by
        simpa [TEXTCOLS] using h3 with h4 | h4 | h4 | h4
      · exact instD r hr p hp h4
      · exact fieldD r hr p hp h4
      · exact eduD r hr p hp h4
      · exact distD r hr p hp h4

/-- A canonical table is a fixed point of the Normalizer. -/
theorem canonical_fixed (t : Table) (h : Canonical t) : normalize t = Except.ok t := by
  obtain ⟨hsub, hrows⟩ := h
  have hnd : t.cols.Nodup := List.Nodup.sublist hsub (by decide)
  have hfil : KCOLS.filter (fun c => decide (c ∈ t.cols)) = t.cols :=
    filter_mem_of_sublist hsub (by decide)
  have hsel : selectCols t = t := by
    have hmap : t.rows.map (fun r =>
        (KCOLS.filter (fun c => decide (c ∈ t.cols))).map (fun c => (c, getCell r c))) =
        t.rows := by
      conv_rhs => rw [← List.map_id t.rows]
      apply List.map_congr_left
      intro r hr
      rw [hfil]
      exact build_getCell r t.cols (hrows r hr).1 hnd
    show ({ cols := KCOLS.filter (fun c => decide (c ∈ t.cols)),
            rows := t.rows.map (fun r =>
              (KCOLS.filter (fun c => decide (c ∈ t.cols))).map
                (fun c => (c, getCell r c))) } : Table) = t
    rw [hmap, hfil]
  have hts : mapColE ("_submission_time") toTimeCell t = Except.ok t := by
    unfold mapColE
    by_cases hmem : ("_submission_time") ∈ t.cols
    · rw [if_pos hmem,
        mapRowsE_id _ toTimeCell t.rows
          (fun r hr p hp hp1 => ((hrows r hr).2 p hp).1 hp1)]
    · rw [if_neg hmem]
  have hnum : mapCol ("internship_exposure_count") toNumCell t = t := by
    unfold mapCol
    by_cases hmem : ("internship_exposure_count") ∈ t.cols
    · rw [if_pos hmem]
      have hmap : t.rows.map (mapRow ("internship_exposure_count") toNumCell) = t.rows := by
        conv_rhs => rw [← List.map_id t.rows]
        exact List.map_congr_left (fun r hr =>
          mapRow_id _ toNumCell r (fun p hp hp1 => ((hrows r hr).2 p hp).2.1 hp1))
      rw [hmap]
    · rw [if_neg hmem]
  have htext : ∀ c ∈ TEXTCOLS, mapCol c toTextCell t = t := by
    intro c hc
    unfold mapCol
    by_cases hmem : c ∈ t.cols
    · rw [if_pos hmem]
      have hmap : t.rows.map (mapRow c toTextCell) = t.rows := by
        conv_rhs => rw [← List.map_id t.rows]
        exact List.map_congr_left (fun r hr =>
          mapRow_id c toTextCell r (fun p hp hp1 =>
            ((hrows r hr).2 p hp).2.2 (hp1 ▸ hc)))
      rw [hmap]
    · rw [if_neg hmem]
  unfold normalize
  rw [hsel, hts]
  dsimp only
  rw [hnum]
  show Except.ok
    (mapCol ("district_of_residence") toTextCell
      (mapCol ("education_level") toTextCell
        (mapCol ("field_of_study") toTextCell
          (mapCol ("institution_name") toTextCell t)))) = Except.ok t
  rw [htext ("institution_name") (by decide), htext ("field_of_study") (by decide),
    htext ("education_level") (by decide), htext ("district_of_residence") (by decide)]

/-- Claim C9: the Normalizer is idempotent — on its own output it is the
identity (column selection, timestamp parsing, numeric coercion, and
trim + title-case all leave an already-normalized table unchanged). -/
theorem claim_C9 (t t2 : Table) (h : normalize t = Except.ok t2) :
    normalize t2 = Except.ok t2 :=
  canonical_fixed t2 (normalize_canonical t t2 h)

theorem claim_C9_witness :
    normalize tInst = Except.ok tInstN ∧ normalize tInstN = Except.ok tInstN :=
  ⟨by rfl, claim_C9 tInst tInstN (by rfl)⟩

/-! ## The numeric-coercion policy, amended (claim C5) -/

/-- Claim C5 (amended): unparsable numeric values become zero, and that
policy reaches both numeric columns, but not uniformly for every
consumer: `internship_exposure_count` is coerced by the Normalizer, so
every downstream consumer sees numbers, while `scholarship_frequency` is
coerced only inside the charts tab (app.py line 260) — the data-table /
CSV consumer, which runs earlier, sees the raw values (see
`claim_C5_counterexample`). -/
theorem claim_C5 (t t2 : Table) (h : normalize t = Except.ok t2) :
    (∀ s, parseNum s = none → toNumCell (Cell.str s) = Cell.num 0) ∧
    (∀ r ∈ t2.rows, ∀ p ∈ r, p.1 = ("internship_exposure_count") → ∃ n, p.2 = Cell.num n) ∧
    (∀ u : Table, ("institution_name") ∈ u.cols → ("scholarship_frequency") ∈ u.cols →
      ∀ r ∈ (chartsStage u).rows, ∀ p ∈ r, p.1 = ("scholarship_frequency") →
        ∃ n, p.2 = Cell.num n) := by
  refine ⟨?_, ?_, ?_⟩
  · intro s hs
    unfold toNumCell
    dsimp only
    rw [hs]
  · intro r hr p hp hp1
    have hcan := normalize_canonical t t2 h
    have := ((hcan.2 r hr).2 p hp).2.1 hp1
    obtain ⟨n, hn⟩ := toNumCell_shape p.2
    exact ⟨n, by rw [← this, hn]⟩
  · intro u hu1 hu2 r hr p hp hp1
    unfold chartsStage at hr
    rw [if_pos ⟨hu1, hu2⟩] at hr
    unfold mapCol at hr
    rw [if_pos hu2] at hr
    obtain ⟨r0, _, rfl⟩ := List.mem_map.mp hr
    obtain ⟨q, _, heq⟩ := List.mem_map.mp hp
    by_cases hq1 : q.1 = ("scholarship_frequency")
    · rw [if_pos hq1] at heq
      obtain ⟨n, hn⟩ := toNumCell_shape q.2
      exact ⟨n, by rw [← heq, hn]⟩
    · rw [if_neg hq1] at heq
      subst heq
      exact absurd hp1 hq1

theorem claim_C5_witness :
    normalize rawA = Except.ok rawAN ∧
    ((∀ s, parseNum s = none → toNumCell (Cell.str s) = Cell.num 0) ∧
     (∀ r ∈ rawAN.rows, ∀ p ∈ r, p.1 = ("internship_exposure_count") →
        ∃ n, p.2 = Cell.num n) ∧
     (∀ u : Table, ("institution_name") ∈ u.cols → ("scholarship_frequency") ∈ u.cols →
        ∀ r ∈ (chartsStage u).rows, ∀ p ∈ r, p.1 = ("scholarship_frequency") →
          ∃ n, p.2 = Cell.num n)) :=
  ⟨by rfl, claim_C5 rawA rawAN (by rfl)⟩

end Kobo
